import Mathlib

/-!
# ConnectionDB: placeholder rewriting, literal escaping, leases, pools, the pool registry
and the two driver adapters

A shallow embedding of `src/ConnectionDB.cpp` / `src/ConnectionDB.h`.

* Text (`std::string`, `std::string_view`) is a `List Char`, one `Char` per C++ `char`.
* Every C++ loop is a recursive function over the part of the input that is still to be
  read; the string being built is carried as `str` and grows with `++` (`push_back`, `+=`).
* A `std::shared_ptr<T>` that may be null is an `Option`; the pool an outstanding lease
  refers to through its `std::weak_ptr` is passed explicitly as an `Option ConnectionDBPool`
  (`none` once the pool has been destroyed).
* What the database drivers answer is an input of the model: the outcome of each driver
  call an operation makes is an argument of the operation, and the results a session still
  has to deliver through `PQgetResult` are carried along as a `PGconn`.
-/

/-! ## Placeholder rewriting (`replaceParameters`) -/

/-- The single quote character, `'\''` in the source. -/
def SINGLE_QUOTE : Char := Char.ofNat 39

/-- The double quote character, `'"'` in the source. -/
def DOUBLE_QUOTE : Char := Char.ofNat 34

/-- The characters of `std::to_string(n)` for an `int`. -/
def to_string (n : Int) : List Char := (toString n).toList

mutual
/-- The `for` loop of `replaceParameters`, entered with `begin` at the head of the first
argument. `count` is the C++ `int` counter: it never exceeds the number of characters read
plus one, so it stays inside `int` for every text shorter than `2^31 - 1` characters. -/
def replaceParameters.loop : List Char → Int → List Char → List Char × Int
  | [], count, str => (str, count)
  | c :: rest, count, str =>
    if c = '?' then
      replaceParameters.loop rest (count + 1) (str ++ '$' :: to_string count)
    else if c = SINGLE_QUOTE then
      replaceParameters.singleQuoted rest count (str ++ [c])
    else if c = DOUBLE_QUOTE then
      replaceParameters.doubleQuoted rest count (str ++ [c])
    else
      replaceParameters.loop rest count (str ++ [c])
/-- The inner `while(begin < end)` of the single-quote branch. It is left either by `break`
just after the closing quote, or with `begin == end`; `begin--` followed by the `begin++`
of the `for` loop then resumes the outer loop at that same position, which at `begin == end`
ends the outer loop as well. -/
def replaceParameters.singleQuoted : List Char → Int → List Char → List Char × Int
  | [], count, str => (str, count)
  | c :: rest, count, str =>
    if c = SINGLE_QUOTE then
      replaceParameters.loop rest count (str ++ [c])
    else
      replaceParameters.singleQuoted rest count (str ++ [c])
/-- The inner `while(begin < end)` of the double-quote branch. -/
def replaceParameters.doubleQuoted : List Char → Int → List Char → List Char × Int
  | [], count, str => (str, count)
  | c :: rest, count, str =>
    if c = DOUBLE_QUOTE then
      replaceParameters.loop rest count (str ++ [c])
    else
      replaceParameters.doubleQuoted rest count (str ++ [c])
end

/-- The function `replaceParameters` of the source: `count` starts at 1, the loop runs over
the whole text, and `count--` precedes the return of `{str, count}`. -/
def replaceParameters (prepare : List Char) : List Char × Int :=
  let r := replaceParameters.loop prepare 1 []
  (r.1, r.2 - 1)

/-! ### The reference rewrite, following the wording of the specification -/

/-- The rest of a quoted region opened by the quote `q`: the text up to the next `q`
inclusive, or up to the end of the text when the region is not terminated. -/
def quotedRegion (q : Char) : List Char → List Char
  | [] => []
  | c :: cs => if c = q then [c] else c :: quotedRegion q cs

/-- The text that follows the quoted region opened by the quote `q`. -/
def afterRegion (q : Char) : List Char → List Char
  | [] => []
  | c :: cs => if c = q then cs else afterRegion q cs

/-- Reference rewrite: scanning from the left, a quoted region is copied verbatim, a `?`
outside the regions becomes `$` followed by the decimal digits of its number `k`, and any
other character is copied. `k` is the number of the next placeholder. -/
def rewriteRef (k : Nat) (s : List Char) : List Char :=
  match s with
  | [] => []
  | c :: cs =>
    if c = SINGLE_QUOTE ∨ c = DOUBLE_QUOTE then
      c :: (quotedRegion c cs ++ rewriteRef k (afterRegion c cs))
    else if c = '?' then '$' :: (Nat.toDigits 10 k ++ rewriteRef (k + 1) cs)
    else c :: rewriteRef k cs
termination_by s.length
decreasing_by
  all_goals simp_wf
  · have h : ∀ t : List Char, (afterRegion c t).length ≤ t.length := by
      intro t
      induction t with
      | nil => simp [afterRegion]
      | cons d ds ih =>
        simp only [afterRegion]
        split
        · simp
        · simp only [List.length_cons]; omega
    have := h cs
    omega

/-- Reference count: the number of `?` characters that lie outside the quoted regions. -/
def placeholderCount (s : List Char) : Nat :=
  match s with
  | [] => 0
  | c :: cs =>
    if c = SINGLE_QUOTE ∨ c = DOUBLE_QUOTE then placeholderCount (afterRegion c cs)
    else if c = '?' then placeholderCount cs + 1
    else placeholderCount cs
termination_by s.length
decreasing_by
  all_goals simp_wf
  · have h : ∀ t : List Char, (afterRegion c t).length ≤ t.length := by
      intro t
      induction t with
      | nil => simp [afterRegion]
      | cons d ds ih =>
        simp only [afterRegion]
        split
        · simp
        · simp only [List.length_cons]; omega
    have := h cs
    omega

/-! ## Connection handles, leases and the pool -/

/-- The enumeration `ConnectionDBPool::ConnectionType`. -/
inductive ConnectionType where
  | PostgreSQL
  | SQLite
  deriving DecidableEq, Repr

/-- A connection handle object (`ConnectionPostgreSQL` or `ConnectionSqlite` behind a
`std::shared_ptr<ConnectionDB>`). `id` is the identity of the object: `createPool` makes a
new object in every iteration of its loop, and `id` is the number of that iteration. -/
structure ConnectionDB where
  id : Nat
  type : ConnectionType
  deriving DecidableEq, Repr

/-- The enumeration `ConnectionDB::FieldType`. -/
inductive FieldType where
  | None | Unknown | Null | Bool | String | Int | Double | Numeric | Date | Time
  | TimeWithTimeZone | DateTime | DateTimeWithTimeZone | Blob | Uuid | Json | Xml
  deriving DecidableEq, Repr

/-- The constant `MAX_POOL_COUNT`. -/
def MAX_POOL_COUNT : Int := 1024

/-- The per-pool state of `ConnectionDBPool`: the queue `connections` of idle handles, its
front first. (`pointer`, `c_mutex` and `condition` carry no data of their own.) -/
structure ConnectionDBPool where
  connections : List ConnectionDB
  deriving DecidableEq, Repr

/-- A lease, `TempConnectionDB`. `conn` is the owned handle (`none` for a null pointer);
`pointer` tells whether the `std::weak_ptr<PoolPointer>` was taken from a pool (`true`) or
is the empty one of the default constructor (`false`). -/
structure TempConnectionDB where
  conn : Option ConnectionDB
  pointer : Bool
  deriving DecidableEq, Repr

namespace ConnectionDBPool

/-- The constructor `ConnectionDBPool()`: an empty queue. -/
def new : ConnectionDBPool := { connections := [] }

/-- The `for` loop of `createPool`, with `remaining = poolCount - i` iterations to go.
`opens i` is the outcome of `conn->open(connectionInfo)` in iteration `i`. -/
def createPool.loop (type : ConnectionType) (opens : Nat → Bool) :
    Nat → Nat → ConnectionDBPool → Bool × ConnectionDBPool
  | 0, _, pool => (true, pool)
  | remaining + 1, i, pool =>
    let conn : ConnectionDB := { id := i, type := type }
    if !opens i then (false, pool)
    else createPool.loop type opens remaining (i + 1)
      { pool with connections := pool.connections ++ [conn] }

/-- The method `ConnectionDBPool::createPool`: the guard on `poolCount` as written in the
source, then the loop over `i = 0 .. poolCount - 1`. -/
def createPool (pool : ConnectionDBPool) (type : ConnectionType) (poolCount : Int)
    (opens : Nat → Bool) : Bool × ConnectionDBPool :=
  if poolCount < 0 && poolCount > MAX_POOL_COUNT then (false, pool)
  else createPool.loop type opens poolCount.toNat 0 pool

/-- The handle objects made by the iterations `i, i + 1, .., i + n - 1` of the loop of
`createPool`, in that order. -/
def createdHandles (type : ConnectionType) (i n : Nat) : List ConnectionDB :=
  (List.range' i n).map (fun j => { id := j, type := type })

/-- The method `ConnectionDBPool::connection()`: with an empty queue the caller waits on the
condition variable and the call does not return (`none`); otherwise the front handle is
popped and wrapped in a lease. -/
def connection (pool : ConnectionDBPool) : Option (TempConnectionDB × ConnectionDBPool) :=
  match pool.connections with
  | [] => none
  | conn :: rest => some ({ conn := some conn, pointer := true }, { pool with connections := rest })

/-- The method `ConnectionDBPool::freeConnection`: push the handle at the back of the queue. -/
def freeConnection (pool : ConnectionDBPool) (connection : ConnectionDB) : ConnectionDBPool :=
  { pool with connections := pool.connections ++ [connection] }

end ConnectionDBPool

namespace TempConnectionDB

/-- The private default constructor `TempConnectionDB()`. -/
def empty : TempConnectionDB := { conn := none, pointer := false }

/-- The method `TempConnectionDB::isValid`. -/
def isValid (t : TempConnectionDB) : Bool := t.conn.isSome

/-- The call `pointer.expired()`, `pool` being the pool the lease was taken from (`none`
once that pool is destroyed). -/
def expired (t : TempConnectionDB) (pool : Option ConnectionDBPool) : Bool :=
  !(t.pointer && pool.isSome)

/-- The call `pointer.lock()`. -/
def lock (t : TempConnectionDB) (pool : Option ConnectionDBPool) : Option ConnectionDBPool :=
  if t.pointer then pool else none

/-- The method `TempConnectionDB::returnToPoolDB`, on the lease and the pool it came from.
`std::move(conn)` into `freeConnection` leaves `conn` null. -/
def returnToPoolDB (t : TempConnectionDB) (pool : Option ConnectionDBPool) :
    TempConnectionDB × Option ConnectionDBPool :=
  match t.conn with
  | none => (t, pool)
  | some conn =>
    if t.expired pool then (t, pool)
    else
      match t.lock pool with
      | some p => ({ t with conn := none }, some (p.freeConnection conn))
      | none => ({ t with conn := none }, pool)

/-- The destructor `~TempConnectionDB`: `returnToPoolDB()`, after which the lease is gone;
what remains is the pool. -/
def destroy (t : TempConnectionDB) (pool : Option ConnectionDBPool) : Option ConnectionDBPool :=
  (t.returnToPoolDB pool).2

/-- The forwarding pattern `(conn) ? conn->method(...) : fallback` shared by the
operations of a lease; `method` is the operation of the handle. -/
def forward {α : Type} (t : TempConnectionDB) (method : ConnectionDB → α) (fallback : α) : α :=
  match t.conn with
  | some conn => method conn
  | none => fallback

/-- The method `TempConnectionDB::error`. -/
def error (t : TempConnectionDB) (m : ConnectionDB → List Char) : List Char := t.forward m []

/-- The method `TempConnectionDB::isOpen`. -/
def isOpen (t : TempConnectionDB) (m : ConnectionDB → Bool) : Bool := t.forward m false

/-- The method `TempConnectionDB::execute`. -/
def execute (t : TempConnectionDB) (m : ConnectionDB → Bool) : Bool := t.forward m false

/-- The method `TempConnectionDB::prepare`. -/
def prepare (t : TempConnectionDB) (m : ConnectionDB → Bool) : Bool := t.forward m false

/-- The method `TempConnectionDB::bind`: the handle that receives the call, if any. -/
def bind (t : TempConnectionDB) : Option ConnectionDB := t.conn

/-- The method `TempConnectionDB::exec`. -/
def exec (t : TempConnectionDB) (m : ConnectionDB → Bool) : Bool := t.forward m false

/-- The method `TempConnectionDB::fieldCount` (its fallback `false` converts to `0`). -/
def fieldCount (t : TempConnectionDB) (m : ConnectionDB → Int) : Int := t.forward m 0

/-- The method `TempConnectionDB::fieldName`. -/
def fieldName (t : TempConnectionDB) (m : ConnectionDB → List Char) : List Char :=
  t.forward m []

/-- The method `TempConnectionDB::fieldType`. -/
def fieldType (t : TempConnectionDB) (m : ConnectionDB → FieldType) : FieldType :=
  t.forward m FieldType.None

/-- The method `TempConnectionDB::next`. -/
def next (t : TempConnectionDB) (m : ConnectionDB → Bool) : Bool := t.forward m false

/-- The method `TempConnectionDB::value`. -/
def value (t : TempConnectionDB) (m : ConnectionDB → List Char) : List Char := t.forward m []

/-- The method `TempConnectionDB::tables`, the set given as a list. -/
def tables (t : TempConnectionDB) (m : ConnectionDB → List (List Char)) : List (List Char) :=
  t.forward m []

end TempConnectionDB

/-! ### A pool together with its outstanding leases -/

/-- One pool object (`none` once destroyed) and the leases taken from it, in the order in
which they were acquired; a released lease stays in the list, empty. -/
structure PoolWorld where
  pool : Option ConnectionDBPool
  leases : List TempConnectionDB
  deriving DecidableEq, Repr

/-- The two operations of the claims on a pool: acquire a lease with
`ConnectionDBPool::connection()`, or call `returnToPoolDB()` on the lease number `lease`. -/
inductive PoolStep where
  | acquire
  | release (lease : Nat)
  deriving DecidableEq, Repr

namespace PoolWorld

/-- Call `returnToPoolDB()` on the lease at position `i` of the list (no lease there: nothing
happens). -/
def releaseAt : Nat → List TempConnectionDB → Option ConnectionDBPool →
    List TempConnectionDB × Option ConnectionDBPool
  | _, [], pool => ([], pool)
  | 0, t :: ts, pool => ((t.returnToPoolDB pool).1 :: ts, (t.returnToPoolDB pool).2)
  | i + 1, t :: ts, pool => (t :: (releaseAt i ts pool).1, (releaseAt i ts pool).2)

/-- One step. An acquire on an empty queue would wait for another thread: in a sequence of
completed steps it is not taken, and leaves the state as it is. -/
def step (w : PoolWorld) : PoolStep → PoolWorld
  | PoolStep.acquire =>
    match w.pool with
    | none => w
    | some p =>
      match p.connection with
      | none => w
      | some r => { pool := some r.2, leases := w.leases ++ [r.1] }
  | PoolStep.release i =>
    { pool := (releaseAt i w.leases w.pool).2, leases := (releaseAt i w.leases w.pool).1 }

/-- Run a finite sequence of steps. -/
def run (w : PoolWorld) (steps : List PoolStep) : PoolWorld := steps.foldl step w

/-- The handles held by the outstanding leases. -/
def held (w : PoolWorld) : List ConnectionDB := w.leases.filterMap (fun t => t.conn)

end PoolWorld

namespace ConnectionDBPool

/-- Acquire a lease and release it at once: `pool.connection().returnToPoolDB()`. The result
is `none` when the acquire would wait. -/
def roundTrip (pool : ConnectionDBPool) : Option ConnectionDBPool :=
  match pool.connection with
  | none => none
  | some r => (r.1.returnToPoolDB (some r.2)).2

/-- Acquire and release `M` times in a row. -/
def roundTrips : Nat → ConnectionDBPool → Option ConnectionDBPool
  | 0, pool => some pool
  | M + 1, pool => (roundTrip pool).bind (roundTrips M)

end ConnectionDBPool

/-! ## The pool registry (static members of `ConnectionDBPool`) -/

/-- The static map `ConnectionDBPool::pools`, a `std::map` from names to shared pointers:
at most one entry per key; the value `none` is a null `std::shared_ptr`. -/
structure PoolMap where
  entries : List (List Char × Option ConnectionDBPool)
  deriving DecidableEq, Repr

namespace PoolMap

/-- Lookup of a key in the entries (`std::map::find`). -/
def findEntries (key : List Char) :
    List (List Char × Option ConnectionDBPool) → Option (Option ConnectionDBPool)
  | [] => none
  | e :: rest => if e.1 = key then some e.2 else findEntries key rest

/-- Store `value` under `key`: the entry of that key is overwritten, or a new one is made. -/
def assignEntries (key : List Char) (value : Option ConnectionDBPool) :
    List (List Char × Option ConnectionDBPool) → List (List Char × Option ConnectionDBPool)
  | [] => [(key, value)]
  | e :: rest => if e.1 = key then (key, value) :: rest else e :: assignEntries key value rest

/-- The value stored under `key`, if the key is present. -/
def find (pools : PoolMap) (key : List Char) : Option (Option ConnectionDBPool) :=
  findEntries key pools.entries

/-- The call `pools.contains(key)`. -/
def contains (pools : PoolMap) (key : List Char) : Bool := (pools.find key).isSome

/-- The assignment `pools[key] = value`. -/
def assign (pools : PoolMap) (key : List Char) (value : Option ConnectionDBPool) : PoolMap :=
  { entries := assignEntries key value pools.entries }

/-- The read `pools[key]` (`std::map::operator[]`): a key that is absent is first inserted
with a value-initialised (null) pointer; the value under the key is returned. -/
def index (pools : PoolMap) (key : List Char) : Option ConnectionDBPool × PoolMap :=
  match pools.find key with
  | some value => (value, pools)
  | none => (none, pools.assign key none)

/-- The call `pools.erase(key)`. -/
def erase (pools : PoolMap) (key : List Char) : PoolMap :=
  { entries := pools.entries.filter (fun e => e.1 ≠ key) }

end PoolMap

namespace Registry

/-- The static `ConnectionDBPool::open(connectionName, type, poolCount, connectionInfo,
logger)`; `opens` gives the outcomes of the handle opens inside `createPool`. -/
def open_ (pools : PoolMap) (connectionName : List Char) (type : ConnectionType)
    (poolCount : Int) (opens : Nat → Bool) : Bool × PoolMap :=
  if pools.contains connectionName then (false, pools)
  else
    let r := ConnectionDBPool.createPool ConnectionDBPool.new type poolCount opens
    if !r.1 then (false, pools)
    else (true, pools.assign connectionName (some r.2))

/-- The static `ConnectionDBPool::isOpen(connectionName)`. -/
def isOpen (pools : PoolMap) (connectionName : List Char) : Bool :=
  pools.contains connectionName

/-- The static `ConnectionDBPool::connection(connectionName)`: the lease and the registry
after the call, or `none` when the call waits on an empty pool. The pool is shared through
its pointer, so the pop inside `pool->connection()` shows in the registry entry. -/
def connection (pools : PoolMap) (connectionName : List Char) :
    Option (TempConnectionDB × PoolMap) :=
  let r := pools.index connectionName
  match r.1 with
  | none => some (TempConnectionDB.empty, r.2)
  | some pool =>
    match pool.connection with
    | none => none
    | some l => some (l.1, r.2.assign connectionName (some l.2))

/-- The static `ConnectionDBPool::close(connectionName)`. -/
def close (pools : PoolMap) (connectionName : List Char) : PoolMap :=
  pools.erase connectionName

end Registry

/-! ## The client/server adapter: `ConnectionPostgreSQL::prepare` -/

/-- The result states of the driver (`ExecStatusType` of libpq). -/
inductive ExecStatusType where
  | PGRES_EMPTY_QUERY | PGRES_COMMAND_OK | PGRES_TUPLES_OK | PGRES_COPY_OUT | PGRES_COPY_IN
  | PGRES_BAD_RESPONSE | PGRES_NONFATAL_ERROR | PGRES_FATAL_ERROR | PGRES_COPY_BOTH
  | PGRES_SINGLE_TUPLE
  deriving DecidableEq, Repr

/-- A driver result (`PGresult`): its status, its columns (name and type identifier) and
its rows of cell texts. -/
structure PGresult where
  status : ExecStatusType
  fields : List (List Char × Nat)
  tuples : List (List (List Char))
  deriving DecidableEq, Repr

/-- The members of `ConnectionPostgreSQL`, with `dbmsName` and `err` of its base class.
`conn` tells whether the driver session pointer is non-null. -/
structure ConnectionPostgreSQL where
  dbmsName : List Char
  err : List Char
  next_pos : Int
  singleRow : Bool
  isSingleRow : Int
  conn : Bool
  res : Option PGresult
  stmtCounter : Nat
  stmtName : List Char
  boundCount : Int
  bound : List (Int × List Char)
  deriving DecidableEq, Repr

/-- What the driver answers during one `prepare`: whether `PQsendPrepare` reported success,
the status of the result of the prepare command, and the text of `PQerrorMessage`. -/
structure PrepareReply where
  sendPrepare : Bool
  stmtStatus : ExecStatusType
  errorMessage : List Char
  deriving DecidableEq, Repr

namespace ConnectionPostgreSQL

/-- The method `ConnectionDB::setError` (the logger call aside). -/
def setError (c : ConnectionPostgreSQL) (error : List Char) : ConnectionPostgreSQL :=
  { c with err := c.dbmsName ++ [':', ' '] ++ error }

/-- The method `ConnectionPostgreSQL::clearResurce`. -/
def clearResurce (c : ConnectionPostgreSQL) : ConnectionPostgreSQL :=
  let c1 := { c with next_pos := 0, res := none }
  if c1.stmtName.length > 0 then { c1 with boundCount := 0, bound := [], stmtName := [] }
  else c1

/-- The method `ConnectionPostgreSQL::prepare`. `stmtCounter` is an `unsigned int`. In
single-row mode the loop over `PQgetResult` ends with `res` null. -/
def prepare (c : ConnectionPostgreSQL) (prepare : List Char) (d : PrepareReply) :
    Bool × ConnectionPostgreSQL :=
  if !c.conn then (false, c)
  else
    let c1 := c.clearResurce
    let c2 := { c1 with stmtCounter := (c1.stmtCounter + 1) % 2 ^ 32 }
    let c3 := { c2 with stmtName := ['s', 't', 'm', 't', '_'] ++ (toString c2.stmtCounter).toList }
    let pair := replaceParameters prepare
    let c4 := { c3 with boundCount := pair.2 }
    if c4.singleRow then
      if !d.sendPrepare then (false, c4.setError d.errorMessage)
      else
        let c5 := { c4 with res := none }
        if d.stmtStatus ≠ ExecStatusType.PGRES_COMMAND_OK then
          (false, c5.setError d.errorMessage)
        else (true, c5)
    else
      if d.stmtStatus ≠ ExecStatusType.PGRES_COMMAND_OK then
        (false, c4.setError d.errorMessage)
      else (true, c4)

end ConnectionPostgreSQL

/-! ## Literal escaping (`ConnectionDB::sqlEscaping`) -/

/-- The `for` loop of `sqlEscaping` over the characters of `value` still to be read; `ret`
is the text built so far. -/
def ConnectionDB.sqlEscaping.loop : List Char → List Char → List Char
  | [], ret => ret
  | v :: rest, ret =>
    if v = SINGLE_QUOTE then ConnectionDB.sqlEscaping.loop rest (ret ++ [SINGLE_QUOTE, SINGLE_QUOTE])
    else ConnectionDB.sqlEscaping.loop rest (ret ++ [v])

/-- The static `ConnectionDB::sqlEscaping`: an opening quote, the loop, a closing quote
(`reserve` and `shrink_to_fit` do not change the text). -/
def ConnectionDB.sqlEscaping (value : List Char) : List Char :=
  ConnectionDB.sqlEscaping.loop value [SINGLE_QUOTE] ++ [SINGLE_QUOTE]

/-- Reference: the text with every single quote doubled and every other character
unchanged. -/
def doubleQuotes : List Char → List Char
  | [] => []
  | c :: cs => if c = SINGLE_QUOTE then SINGLE_QUOTE :: SINGLE_QUOTE :: doubleQuotes cs
               else c :: doubleQuotes cs

/-- Reference: collapse each doubled single quote into one, reading from the left. -/
def collapseQuotes : List Char → List Char
  | [] => []
  | [c] => [c]
  | c :: d :: rest =>
    if c = SINGLE_QUOTE ∧ d = SINGLE_QUOTE then SINGLE_QUOTE :: collapseQuotes rest
    else c :: collapseQuotes (d :: rest)

/-- Reference: strip the two outer characters of a quoted literal and collapse the doubled
quotes inside. -/
def unescape (s : List Char) : List Char := collapseQuotes (s.drop 1).dropLast

/-! ## The client/server adapter: bind, exec, streaming and reads -/

/-- The assignment `bound[pos] = value` on a `std::map<int, std::string>`, the map being
the list of its entries in key order: an entry with the key is overwritten, else a new
entry is put at the place of the key. -/
def mapAssign (pos : Int) (value : List Char) : List (Int × List Char) → List (Int × List Char)
  | [] => [(pos, value)]
  | e :: rest =>
    if pos < e.1 then (pos, value) :: e :: rest
    else if pos = e.1 then (pos, value) :: rest
    else e :: mapAssign pos value rest

/-- The value stored under a key of a `std::map<int, std::string>`, if any. -/
def mapFind (pos : Int) : List (Int × List Char) → Option (List Char)
  | [] => none
  | e :: rest => if e.1 = pos then some e.2 else mapFind pos rest

/-- The element of a list at a C++ `int` index, if the index is within the list. -/
def atIndex {α : Type} (l : List α) (i : Int) : Option α :=
  if i < 0 then none else l.get? i.toNat

/-- The driver session behind `conn` (a `PGconn`), as far as the adapter reads it: the
results that successive `PQgetResult` calls return, after which it returns null, and the
text of `PQerrorMessage`. Two counters keep the books of the result objects: `live` is the
number of results the driver has handed out that have not been released with `PQclear`,
and `peak` is the largest value `live` has had. -/
structure PGconn where
  pending : List PGresult
  errorMessage : List Char
  live : Nat
  peak : Nat
  deriving DecidableEq, Repr

/-- The books when the driver hands out the result `res`: a result that is not null is one
more live result. -/
def PGconn.handOut (s : PGconn) (res : Option PGresult) : PGconn :=
  match res with
  | none => s
  | some _ => { s with live := s.live + 1, peak := max s.peak (s.live + 1) }

/-- The call `PQclear(res)`: nothing for a null result, else one live result fewer. -/
def PQclear (s : PGconn) (res : Option PGresult) : PGconn :=
  match res with
  | none => s
  | some _ => { s with live := s.live - 1 }

/-- The call `PQgetResult(conn)`: the next pending result, handed out, or null. -/
def PQgetResult (s : PGconn) : Option PGresult × PGconn :=
  match s.pending with
  | [] => (none, s)
  | r :: rest => (some r, PGconn.handOut { s with pending := rest } (some r))

/-- The loop `do{ PQclear(res); }while((res = PQgetResult(conn)) != nullptr);`, entered
with the result `res` in hand: it is cleared, the next one is fetched, and so on until
`PQgetResult` returns null. The first argument bounds the number of iterations. -/
def drainResults.loop : Nat → PGconn → PGresult → PGconn
  | 0, s, _ => s
  | fuel + 1, s, res =>
    match (PQgetResult (PQclear s (some res))).1 with
    | none => (PQgetResult (PQclear s (some res))).2
    | some r => drainResults.loop fuel (PQgetResult (PQclear s (some res))).2 r

/-- The drain loop with a bound that it cannot reach: every iteration but the last takes
one pending result. -/
def drainResults (s : PGconn) (res : PGresult) : PGconn :=
  drainResults.loop (s.pending.length + 1) s res

/-- The call `PQnfields(res)`. -/
def PQnfields (res : PGresult) : Int := res.fields.length

/-- The call `PQntuples(res)`. -/
def PQntuples (res : PGresult) : Int := res.tuples.length

/-- The call `PQfname(res, index)`: null outside the columns. -/
def PQfname (res : PGresult) (index : Int) : Option (List Char) :=
  (atIndex res.fields index).map (fun f => f.1)

/-- The call `PQftype(res, index)`: `InvalidOid` (0) outside the columns. -/
def PQftype (res : PGresult) (index : Int) : Nat :=
  match atIndex res.fields index with
  | some f => f.2
  | none => 0

/-- The call `PQgetvalue(res, tuple, field)`: null outside the rows and columns. -/
def PQgetvalue (res : PGresult) (tuple field : Int) : Option (List Char) :=
  match atIndex res.tuples tuple with
  | some row => atIndex row field
  | none => none

/-- What the driver answers during one `exec`: whether `PQsendQueryPrepared` reported
success, the value of `PQsetSingleRowMode`, the results the server then delivers through
`PQgetResult`, the result of `PQexecPrepared` (synchronous mode; it may be null), and the
text of `PQerrorMessage` after the call. -/
structure ExecReply where
  sendQueryPrepared : Bool
  setSingleRowMode : Int
  results : List PGresult
  execPrepared : Option PGresult
  errorMessage : List Char
  deriving DecidableEq, Repr

/-- The outcome of one `exec`: the returned value, the adapter afterwards, the driver session
afterwards, and the array `values` handed to the driver with `bound.size()` as its length
(`none` when the driver is not called). -/
structure ExecOutcome where
  ok : Bool
  state : ConnectionPostgreSQL
  session : PGconn
  sent : Option (List (List Char))
  deriving DecidableEq, Repr

namespace ConnectionPostgreSQL

/-- The constructor `ConnectionPostgreSQL(logger, singleRow)`. The members `isSingleRow` and
`boundCount` have no initialiser: their first values are inputs. -/
def new (singleRow : Bool) (isSingleRow boundCount : Int) : ConnectionPostgreSQL :=
  ⟨['P', 'o', 's', 't', 'g', 'r', 'e', 'S', 'Q', 'L'], [], 0, singleRow, isSingleRow, false,
    none, 0, [], boundCount, []⟩

/-- The method `ConnectionPostgreSQL::open`; `connected` tells whether the driver reports
`CONNECTION_OK`, `errorMessage` is the text of `PQerrorMessage`. -/
def open_ (c : ConnectionPostgreSQL) (connected : Bool) (errorMessage : List Char) :
    Bool × ConnectionPostgreSQL :=
  if c.conn then (false, c)
  else if connected then (true, { c with conn := true })
  else (false, { c.setError errorMessage with conn := false })

/-- The method `ConnectionPostgreSQL::firstSingleRow`. -/
def firstSingleRow (c : ConnectionPostgreSQL) (s : PGconn) :
    Bool × ConnectionPostgreSQL × PGconn :=
  match (PQgetResult s).1 with
  | none => (true, { c with res := none }, (PQgetResult s).2)
  | some res =>
    match res.status with
    | ExecStatusType.PGRES_SINGLE_TUPLE => (true, { c with res := some res }, (PQgetResult s).2)
    | ExecStatusType.PGRES_COMMAND_OK =>
      (true, { c with res := none }, PQclear (PQgetResult s).2 (some res))
    | ExecStatusType.PGRES_TUPLES_OK =>
      (true, { c with res := none }, drainResults (PQgetResult s).2 res)
    | _ =>
      (false, { c.setError (PQgetResult s).2.errorMessage with res := none },
        drainResults (PQgetResult s).2 res)

/-- The method `ConnectionPostgreSQL::bind`. -/
def bind (c : ConnectionPostgreSQL) (pos : Int) (value : List Char) : ConnectionPostgreSQL :=
  if pos < 0 ∨ pos ≥ c.boundCount then c
  else { c with bound := mapAssign pos value c.bound }

/-- The method `ConnectionPostgreSQL::exec`. It starts with `PQclear(res); res = nullptr;`.
The vector `values` holds the texts of `bound` in key order. `PQresultStatus` of a null
result is `PGRES_FATAL_ERROR`, and `PQclear` of a null result does nothing. -/
def exec (c : ConnectionPostgreSQL) (s : PGconn) (d : ExecReply) : ExecOutcome :=
  if c.stmtName.length = 0 then ⟨false, c, s, none⟩
  else
    let s0 := PQclear s c.res
    let c1 := { c with next_pos := 0, res := none }
    let values := c1.bound.map (fun v => v.2)
    if c1.singleRow then
      if !d.sendQueryPrepared then
        ⟨false, c1.setError d.errorMessage, { s0 with errorMessage := d.errorMessage },
          some values⟩
      else
        let s1 : PGconn := { s0 with pending := d.results, errorMessage := d.errorMessage }
        let c2 := { c1 with isSingleRow := d.setSingleRowMode }
        if c2.isSingleRow ≠ 0 then
          ⟨(c2.firstSingleRow s1).1, (c2.firstSingleRow s1).2.1, (c2.firstSingleRow s1).2.2,
            some values⟩
        else ⟨true, c2, s1, some values⟩
    else
      let s1 : PGconn := PGconn.handOut { s0 with errorMessage := d.errorMessage } d.execPrepared
      match d.execPrepared with
      | none => ⟨false, c1.setError d.errorMessage, s1, some values⟩
      | some res =>
        match res.status with
        | ExecStatusType.PGRES_COMMAND_OK => ⟨true, c1, PQclear s1 (some res), some values⟩
        | ExecStatusType.PGRES_TUPLES_OK => ⟨true, { c1 with res := some res }, s1, some values⟩
        | _ => ⟨false, c1.setError d.errorMessage, PQclear s1 (some res), some values⟩

/-- The method `ConnectionPostgreSQL::next`. In single-row mode, past the first row, the
result in hand is released by `if(res != nullptr) PQclear(res);` before the next one is
fetched. -/
def next (c : ConnectionPostgreSQL) (s : PGconn) : Bool × ConnectionPostgreSQL × PGconn :=
  if c.singleRow = true ∧ c.isSingleRow ≠ 0 then
    if !c.conn then (false, c, s)
    else if c.next_pos = 0 ∧ c.res ≠ none then (true, { c with next_pos := c.next_pos + 1 }, s)
    else
      match (PQgetResult (PQclear s c.res)).1 with
      | none => (false, { c with res := none }, (PQgetResult (PQclear s c.res)).2)
      | some res =>
        match res.status with
        | ExecStatusType.PGRES_SINGLE_TUPLE =>
          (true, { c with res := some res }, (PQgetResult (PQclear s c.res)).2)
        | ExecStatusType.PGRES_TUPLES_OK =>
          (false, { c with res := none }, drainResults (PQgetResult (PQclear s c.res)).2 res)
        | _ =>
          (false,
            { c.setError (PQgetResult (PQclear s c.res)).2.errorMessage with res := none },
            drainResults (PQgetResult (PQclear s c.res)).2 res)
  else
    match c.res with
    | none => (false, c, s)
    | some res =>
      if c.next_pos = PQntuples res then (false, c, s)
      else (true, { c with next_pos := c.next_pos + 1 }, s)

/-- The state after `n` calls of `next()` in a row. -/
def nextTimes : Nat → ConnectionPostgreSQL × PGconn → ConnectionPostgreSQL × PGconn
  | 0, st => st
  | n + 1, st => nextTimes n (next st.1 st.2).2

/-- The outcome of the call number `n + 1` of `next()` after `exec()`: the returned value,
the adapter and the driver session after it. -/
def execThenNext (c : ConnectionPostgreSQL) (s : PGconn) (d : ExecReply) (n : Nat) :
    Bool × ConnectionPostgreSQL × PGconn :=
  next (nextTimes n ((c.exec s d).state, (c.exec s d).session)).1
    (nextTimes n ((c.exec s d).state, (c.exec s d).session)).2

/-- The method `ConnectionPostgreSQL::fieldCount`. -/
def fieldCount (c : ConnectionPostgreSQL) : Int :=
  match c.res with
  | none => 0
  | some res => PQnfields res

/-- The method `ConnectionPostgreSQL::fieldName`. Both branches of its conditional are
`char *`: the guard yields the null pointer `0`, from which the returned `std::string` is
then constructed. That construction has no defined result (libstdc++ throws
`std::logic_error`): it is `none` here, as is the construction from a null `PQfname`. -/
def fieldName (c : ConnectionPostgreSQL) (fieldIndex : Int) : Option (List Char) :=
  match c.res with
  | none => none
  | some res =>
    if fieldIndex < 0 ∨ PQnfields res ≤ fieldIndex then none
    else PQfname res fieldIndex

/-- The method `ConnectionPostgreSQL::fieldType`. -/
def fieldType (c : ConnectionPostgreSQL) (fieldIndex : Int) : FieldType :=
  match c.res with
  | none => FieldType.None
  | some res =>
    if fieldIndex < 0 ∨ PQnfields res ≤ fieldIndex then FieldType.None
    else
      match PQftype res fieldIndex with
      | 4 => FieldType.Null
      | 16 => FieldType.Bool
      | 18 | 25 | 1042 | 1043 => FieldType.String
      | 20 | 21 | 23 => FieldType.Int
      | 700 | 701 | 790 => FieldType.Double
      | 1700 => FieldType.Numeric
      | 1082 => FieldType.Date
      | 1083 => FieldType.Time
      | 1266 => FieldType.TimeWithTimeZone
      | 1114 | 13413 => FieldType.DateTime
      | 1184 => FieldType.DateTimeWithTimeZone
      | 17 => FieldType.Blob
      | 2950 => FieldType.Uuid
      | 114 => FieldType.Json
      | 142 => FieldType.Xml
      | _ => FieldType.Unknown

/-- The method `ConnectionPostgreSQL::value`. The guard yields `std::string()`; otherwise
the `std::string` is constructed from `PQgetvalue`, which is null (`none`) when there is no
such row. -/
def value (c : ConnectionPostgreSQL) (fieldIndex : Int) : Option (List Char) :=
  match c.res with
  | none => some []
  | some res =>
    if fieldIndex < 0 ∨ fieldIndex ≥ PQnfields res then some []
    else PQgetvalue res (if c.singleRow = true ∧ c.isSingleRow ≠ 0 then 0 else c.next_pos - 1)
      fieldIndex

end ConnectionPostgreSQL

/-! ## The embedded adapter: bind, exec and reads -/

/-- The function `strlcmp(input, lower)` on two C strings (their text without the final
NUL): true when `lower` is used up while `input` still agrees with it, character by
character after `std::tolower`. -/
def strlcmp : List Char → List Char → Bool
  | [], lower => lower.isEmpty
  | _ :: _, [] => true
  | i :: input, l :: lower => if i.toLower ≠ l then false else strlcmp input lower

/-- The result code `SQLITE_ROW`. -/
def SQLITE_ROW : Int := 100

/-- The result code `SQLITE_DONE`. -/
def SQLITE_DONE : Int := 101

/-- The fundamental datatype code `SQLITE_NULL`, the literal `5` of the source. -/
def SQLITE_NULL : Int := 5

/-- A prepared statement of the embedded driver (`sqlite3_stmt`), as far as the adapter
reads and writes it: `sqlite3_bind_parameter_count`, the name and the declared type (it may
be null) of each column, the datatype code and the text of each cell of the current row,
and the texts bound to the parameter indexes by `sqlite3_bind_text`. -/
structure sqlite3_stmt where
  bind_parameter_count : Int
  columns : List (List Char × Option (List Char))
  cells : List (Int × List Char)
  bindings : List (Int × List Char)
  deriving DecidableEq, Repr

/-- The call `sqlite3_column_count(stmt)`. -/
def sqlite3_column_count (stmt : sqlite3_stmt) : Int := stmt.columns.length

/-- The call `sqlite3_column_type(stmt, index)`: `SQLITE_NULL` where there is no cell. -/
def sqlite3_column_type (stmt : sqlite3_stmt) (index : Int) : Int :=
  match atIndex stmt.cells index with
  | some cell => cell.1
  | none => SQLITE_NULL

/-- The call `sqlite3_column_text(stmt, index)`. -/
def sqlite3_column_text (stmt : sqlite3_stmt) (index : Int) : List Char :=
  match atIndex stmt.cells index with
  | some cell => cell.2
  | none => []

/-- The call `sqlite3_bind_text(stmt, index, text, -1, nullptr)`: the text is bound to the
parameter of that index; an index outside `1 .. sqlite3_bind_parameter_count` is refused
by the driver and binds nothing. -/
def sqlite3_bind_text (stmt : sqlite3_stmt) (index : Int) (text : List Char) : sqlite3_stmt :=
  if 1 ≤ index ∧ index ≤ stmt.bind_parameter_count then
    { stmt with bindings := mapAssign index text stmt.bindings }
  else stmt

/-- The members of `ConnectionSqlite`, with `dbmsName` and `err` of its base class. `db`
tells whether the database pointer is non-null; `stmt` is `none` for a null statement. -/
structure ConnectionSqlite where
  dbmsName : List Char
  err : List Char
  db : Bool
  isPrepare : Bool
  isExec : Bool
  isFirst : Bool
  bound : List (Int × List Char)
  stmt : Option sqlite3_stmt
  deriving DecidableEq, Repr

/-- What the driver answers to the `sqlite3_step` of one `exec`: the result code, the cells
of the row it makes current, and the text of `sqlite3_errmsg`. -/
structure StepReply where
  code : Int
  cells : List (Int × List Char)
  errmsg : List Char
  deriving DecidableEq, Repr

namespace ConnectionSqlite

/-- The method `ConnectionDB::setError` (the logger call aside). -/
def setError (c : ConnectionSqlite) (error : List Char) : ConnectionSqlite :=
  { c with err := c.dbmsName ++ [':', ' '] ++ error }

/-- The method `ConnectionSqlite::bind`. -/
def bind (c : ConnectionSqlite) (pos : Int) (value : List Char) : ConnectionSqlite :=
  match c.stmt with
  | none => c
  | some stmt =>
    if c.isPrepare = false ∨ pos < 0 ∨ pos ≥ stmt.bind_parameter_count then c
    else { c with bound := mapAssign (pos + 1) value c.bound }

/-- The loop `for(const auto & p : bound) sqlite3_bind_text(stmt, p.first, ...)` of
`exec`, over the entries of `bound` in key order. -/
def exec.bindAll : List (Int × List Char) → sqlite3_stmt → sqlite3_stmt
  | [], stmt => stmt
  | p :: rest, stmt => exec.bindAll rest (sqlite3_bind_text stmt p.1 p.2)

/-- The method `ConnectionSqlite::exec`. `sqlite3_reset` keeps the bindings. -/
def exec (c : ConnectionSqlite) (d : StepReply) : Bool × ConnectionSqlite :=
  match c.stmt with
  | none => (false, c)
  | some stmt =>
    if c.isPrepare = false then (false, c)
    else
      let c1 := { c with isExec := true, isFirst := false }
      let stmt1 := exec.bindAll c1.bound stmt
      let stmt2 := { stmt1 with cells := d.cells }
      if d.code = SQLITE_ROW then (true, { c1 with isFirst := true, stmt := some stmt2 })
      else if d.code = SQLITE_DONE then (true, { c1 with stmt := some stmt2 })
      else (false, setError { c1 with stmt := some stmt2 } d.errmsg)

/-- The method `ConnectionSqlite::fieldCount`. -/
def fieldCount (c : ConnectionSqlite) : Int :=
  match c.stmt with
  | none => 0
  | some stmt => sqlite3_column_count stmt

/-- The method `ConnectionSqlite::fieldName`. -/
def fieldName (c : ConnectionSqlite) (fieldIndex : Int) : List Char :=
  match c.stmt with
  | none => []
  | some stmt =>
    if fieldIndex < 0 ∨ fieldIndex ≥ sqlite3_column_count stmt then []
    else
      match atIndex stmt.columns fieldIndex with
      | some column => column.1
      | none => []

/-- The chain of `strlcmp` tests of `ConnectionSqlite::fieldType` on a declared type. -/
def fieldType.classify (type : List Char) : FieldType :=
  if strlcmp type "boolean".toList || strlcmp type "bool".toList then FieldType.Bool
  else if strlcmp type "integer".toList || strlcmp type "int".toList
      || strlcmp type "tinyint".toList || strlcmp type "smallint".toList
      || strlcmp type "mediumint".toList || strlcmp type "bigint".toList
      || strlcmp type "unsigned big int".toList then FieldType.Int
  else if strlcmp type "double".toList || strlcmp type "float".toList
      || strlcmp type "real".toList || strlcmp type "numeric".toList
      || strlcmp type "decimal".toList || strlcmp type "double precision".toList then
    FieldType.Double
  else if strlcmp type "text".toList || strlcmp type "char".toList
      || strlcmp type "varchar".toList || strlcmp type "character".toList
      || strlcmp type "varying character".toList || strlcmp type "nchar".toList
      || strlcmp type "native character".toList || strlcmp type "nvarchar".toList
      || strlcmp type "clob".toList then FieldType.String
  else if strlcmp type "datetime".toList || strlcmp type "timestamp".toList then
    FieldType.DateTime
  else if strlcmp type "date".toList then FieldType.Date
  else if strlcmp type "time".toList then FieldType.Time
  else if strlcmp type "blob".toList || strlcmp type "memo".toList then FieldType.Blob
  else FieldType.Unknown

/-- The method `ConnectionSqlite::fieldType`. -/
def fieldType (c : ConnectionSqlite) (fieldIndex : Int) : FieldType :=
  match c.stmt with
  | none => FieldType.None
  | some stmt =>
    if fieldIndex < 0 ∨ fieldIndex ≥ sqlite3_column_count stmt then FieldType.None
    else
      match atIndex stmt.columns fieldIndex with
      | some (_, some type) => fieldType.classify type
      | _ => FieldType.None

/-- The method `ConnectionSqlite::value`. -/
def value (c : ConnectionSqlite) (fieldIndex : Int) : List Char :=
  match c.stmt with
  | none => []
  | some stmt =>
    if fieldIndex < 0 ∨ fieldIndex ≥ sqlite3_column_count stmt then []
    else if sqlite3_column_type stmt fieldIndex = SQLITE_NULL then []
    else sqlite3_column_text stmt fieldIndex

end ConnectionSqlite

/-! ## Sample inputs for the statements at concrete values -/

/-- An open client/server connection in single-row mode, just after a successful
`prepare(query)` on a new connection. -/
def sampleLoaded (query : List Char) : ConnectionPostgreSQL :=
  (((ConnectionPostgreSQL.new true 0 0).open_ true []).2.prepare query
    ⟨true, ExecStatusType.PGRES_COMMAND_OK, []⟩).2

/-- A single-tuple result with one integer column `id` and the one cell `text`. -/
def sampleRow (text : List Char) : PGresult :=
  ⟨ExecStatusType.PGRES_SINGLE_TUPLE, [(['i', 'd'], 23)], [[text]]⟩

/-- The terminal tuples-ok result of a stream in single-row mode: the column, no row. -/
def sampleLast : PGresult := ⟨ExecStatusType.PGRES_TUPLES_OK, [(['i', 'd'], 23)], []⟩

/-- The answer of the driver to an `exec` in single-row mode that delivers `results`. -/
def sampleReply (results : List PGresult) : ExecReply := ⟨true, 1, results, none, []⟩

/-- An embedded connection on which a statement with `count` parameters and one text
column `name` has just been prepared. -/
def sampleSqlite (count : Int) : ConnectionSqlite :=
  ⟨['S', 'Q', 'L', 'i', 't', 'e'], [], true, true, false, false, [],
    some ⟨count, [(['n', 'a', 'm', 'e'], some ['t', 'e', 'x', 't'])], [], []⟩⟩

/-! # Theorems -/

/-! ## Placeholder rewriting -/

theorem afterRegion_length_le (q : Char) (s : List Char) :
    (afterRegion q s).length ≤ s.length := by
  induction s with
  | nil => simp [afterRegion]
  | cons c cs ih =>
    simp only [afterRegion]
    split
    · simp
    · simp only [List.length_cons]; omega

/-- A quoted region and what follows it make up the text after the opening quote: the
region is a verbatim piece of the input. -/
theorem quotedRegion_append_afterRegion (q : Char) (s : List Char) :
    quotedRegion q s ++ afterRegion q s = s := by
  induction s with
  | nil => simp [quotedRegion, afterRegion]
  | cons c cs ih =>
    by_cases h : c = q
    · simp [quotedRegion, afterRegion, h]
    · simp [quotedRegion, afterRegion, h, ih]

theorem to_string_natCast (k : Nat) : to_string (k : Int) = Nat.toDigits 10 k := by
  show (toString (Int.ofNat k)).toList = _
  rfl

theorem singleQuoted_eq (rest : List Char) (count : Int) (str : List Char) :
    replaceParameters.singleQuoted rest count str
      = replaceParameters.loop (afterRegion SINGLE_QUOTE rest) count
          (str ++ quotedRegion SINGLE_QUOTE rest) := by
  induction rest generalizing str with
  | nil => simp [replaceParameters.singleQuoted, replaceParameters.loop, afterRegion, quotedRegion]
  | cons c cs ih =>
    by_cases h : c = SINGLE_QUOTE
    · simp [replaceParameters.singleQuoted, afterRegion, quotedRegion, h]
    · simp [replaceParameters.singleQuoted, afterRegion, quotedRegion, h, ih]

theorem doubleQuoted_eq (rest : List Char) (count : Int) (str : List Char) :
    replaceParameters.doubleQuoted rest count str
      = replaceParameters.loop (afterRegion DOUBLE_QUOTE rest) count
          (str ++ quotedRegion DOUBLE_QUOTE rest) := by
  induction rest generalizing str with
  | nil => simp [replaceParameters.doubleQuoted, replaceParameters.loop, afterRegion, quotedRegion]
  | cons c cs ih =>
    by_cases h : c = DOUBLE_QUOTE
    · simp [replaceParameters.doubleQuoted, afterRegion, quotedRegion, h]
    · simp [replaceParameters.doubleQuoted, afterRegion, quotedRegion, h, ih]

/-- The loop of the source, started on `s` with the counter at `k` and the text `str` built
so far, appends the reference rewrite of `s` and adds the reference count to the counter. -/
theorem loop_eq (n : Nat) : ∀ (s : List Char), s.length ≤ n → ∀ (k : Nat) (str : List Char),
    replaceParameters.loop s (k : Int) str
      = (str ++ rewriteRef k s, ((k + placeholderCount s : Nat) : Int)) := by
  induction n with
  | zero =>
    intro s hs k str
    have : s = [] := List.eq_nil_of_length_eq_zero (Nat.le_zero.mp hs)
    subst this
    simp [replaceParameters.loop, rewriteRef, placeholderCount]
  | succ n ih =>
    intro s hs k str
    cases s with
    | nil => simp [replaceParameters.loop, rewriteRef, placeholderCount]
    | cons c cs =>
      have hcs : cs.length ≤ n := by simpa using hs
      rw [replaceParameters.loop, rewriteRef, placeholderCount]
      by_cases h1 : c = '?'
      · subst h1
        have := ih cs hcs (k + 1) (str ++ '$' :: to_string (k : Int))
        simp only [Nat.cast_add, Nat.cast_one] at this
        rw [if_pos rfl, this, if_neg (by decide), if_pos rfl, if_neg (by decide), if_pos rfl,
          to_string_natCast]
        simp only [List.append_assoc, List.cons_append, Nat.cast_add, Nat.cast_one,
          Prod.mk.injEq, true_and]
        omega
      · by_cases h2 : c = SINGLE_QUOTE
        · subst h2
          have hl := afterRegion_length_le SINGLE_QUOTE cs
          simp [h1, singleQuoted_eq, ih (afterRegion SINGLE_QUOTE cs) (by omega)]
        · by_cases h3 : c = DOUBLE_QUOTE
          · subst h3
            have hl := afterRegion_length_le DOUBLE_QUOTE cs
            simp [h1, h2, doubleQuoted_eq, ih (afterRegion DOUBLE_QUOTE cs) (by omega)]
          · simp [h1, h2, h3, ih cs hcs]

theorem replaceParameters_eq (prepare : List Char) :
    replaceParameters prepare = (rewriteRef 1 prepare, (placeholderCount prepare : Int)) := by
  have := loop_eq prepare.length prepare le_rfl 1 []
  simp only [Nat.cast_one] at this
  simp [replaceParameters, this]

/-- The counter of the source stays within the length of the text: the reference count,
which the returned count equals, is at most the number of characters. -/
theorem placeholderCount_le_length (n : Nat) :
    ∀ s : List Char, s.length ≤ n → placeholderCount s ≤ s.length := by
  induction n with
  | zero =>
    intro s hs
    have : s = [] := List.eq_nil_of_length_eq_zero (Nat.le_zero.mp hs)
    subst this
    simp [placeholderCount]
  | succ n ih =>
    intro s hs
    cases s with
    | nil => simp [placeholderCount]
    | cons c cs =>
      have hcs : cs.length ≤ n := by simpa using hs
      rw [placeholderCount]
      have hl := afterRegion_length_le c cs
      have h1 := ih cs hcs
      have h2 := ih (afterRegion c cs) (by omega)
      simp only [List.length_cons]
      split
      · omega
      · split <;> omega

/-- The count returned by `replaceParameters` is at most the length of the text, so the
`int` counter of the source, which runs one ahead of it, stays in range for every text of
fewer than `2^31 - 1` characters. -/
theorem replaceParameters_count_le_length (prepare : List Char) :
    0 ≤ (replaceParameters prepare).2 ∧ (replaceParameters prepare).2 ≤ (prepare.length : Int) := by
  rw [replaceParameters_eq]
  have := placeholderCount_le_length prepare.length prepare le_rfl
  constructor
  · exact Int.ofNat_nonneg _
  · exact Int.ofNat_le.mpr this

/-- C2: for every query text, the text returned by `replaceParameters` is the reference
rewrite: quoted regions (up to the matching quote, or to the end when unterminated) are
copied verbatim, the k-th `?` outside them becomes `$` and the decimal digits of k, and
every other character is copied in order. -/
theorem replaceParameters_text_eq_rewriteRef (prepare : List Char) :
    (replaceParameters prepare).1 = rewriteRef 1 prepare := by
  rw [replaceParameters_eq]

/-- C3: for every query text, the count returned by `replaceParameters`, which `prepare`
of the client/server adapter stores as `boundCount` on an open connection, is the number of
`?` outside the quoted regions; for the query of the specification the count is 1 and only
the unquoted `?` is rewritten. -/
theorem replaceParameters_count_eq_placeholderCount (prepare : List Char) :
    (replaceParameters prepare).2 = (placeholderCount prepare : Int)
    ∧ (∀ (c : ConnectionPostgreSQL) (d : PrepareReply), c.conn = true →
        (c.prepare prepare d).2.boundCount = (placeholderCount prepare : Int))
    ∧ replaceParameters "select * from t where name = '?' and id = ?".toList
        = ("select * from t where name = '?' and id = $1".toList, 1) := by
  refine ⟨by rw [replaceParameters_eq], ?_, by decide⟩
  intro c d hc
  have hcount : (replaceParameters prepare).2 = (placeholderCount prepare : Int) := by
    rw [replaceParameters_eq]
  unfold ConnectionPostgreSQL.prepare
  simp only [hc, Bool.not_true, Bool.false_eq_true, if_false]
  split
  · split
    · simp [ConnectionPostgreSQL.setError, hcount]
    · split <;> simp [ConnectionPostgreSQL.setError, hcount]
  · split <;> simp [ConnectionPostgreSQL.setError, hcount]

/-! ## Pool creation -/

theorem createPool_guard_false (poolCount : Int) :
    (decide (poolCount < 0) && decide (poolCount > MAX_POOL_COUNT)) = false := by
  unfold MAX_POOL_COUNT
  by_cases h : poolCount < 0
  · have : ¬ poolCount > 1024 := by omega
    simp [h, this]
  · simp [h]

theorem createPool_eq_loop (pool : ConnectionDBPool) (type : ConnectionType) (poolCount : Int)
    (opens : Nat → Bool) :
    ConnectionDBPool.createPool pool type poolCount opens
      = ConnectionDBPool.createPool.loop type opens poolCount.toNat 0 pool := by
  unfold ConnectionDBPool.createPool
  rw [createPool_guard_false]
  simp

theorem createdHandles_succ (type : ConnectionType) (i n : Nat) :
    ConnectionDBPool.createdHandles type i (n + 1)
      = { id := i, type := type } :: ConnectionDBPool.createdHandles type (i + 1) n := by
  simp [ConnectionDBPool.createdHandles, List.range'_succ]

/-- When every open of the iterations `i .. i + n - 1` succeeds the loop returns `true` and
has appended one handle per iteration. -/
theorem createPool_loop_all (type : ConnectionType) (opens : Nat → Bool) (n : Nat) :
    ∀ (i : Nat) (pool : ConnectionDBPool),
      (∀ j, i ≤ j → j < i + n → opens j = true) →
      ConnectionDBPool.createPool.loop type opens n i pool
        = (true, ⟨pool.connections ++ ConnectionDBPool.createdHandles type i n⟩) := by
  induction n with
  | zero =>
    intro i pool _
    simp [ConnectionDBPool.createPool.loop, ConnectionDBPool.createdHandles]
  | succ n ih =>
    intro i pool h
    have hi : opens i = true := h i le_rfl (by omega)
    rw [ConnectionDBPool.createPool.loop]
    simp only [hi, Bool.not_true, Bool.false_eq_true, if_false]
    rw [ih (i + 1) _ (fun j h1 h2 => h j (by omega) (by omega)), createdHandles_succ]
    simp

/-- When the open of iteration `j` is the first one to fail, the loop returns `false` and
the queue has gained exactly the handles of the iterations before `j`. -/
theorem createPool_loop_fail (type : ConnectionType) (opens : Nat → Bool) (n : Nat) :
    ∀ (i : Nat) (pool : ConnectionDBPool) (j : Nat), i ≤ j → j < i + n →
      opens j = false → (∀ j', i ≤ j' → j' < j → opens j' = true) →
      ConnectionDBPool.createPool.loop type opens n i pool
        = (false, ⟨pool.connections ++ ConnectionDBPool.createdHandles type i (j - i)⟩) := by
  induction n with
  | zero => intro i pool j h1 h2; omega
  | succ n ih =>
    intro i pool j h1 h2 hj hbefore
    rw [ConnectionDBPool.createPool.loop]
    by_cases hij : i = j
    · subst hij
      simp [hj, ConnectionDBPool.createdHandles]
    · have hi : opens i = true := hbefore i le_rfl (by omega)
      simp only [hi, Bool.not_true, Bool.false_eq_true, if_false]
      rw [ih (i + 1) _ j (by omega) (by omega) hj (fun j' h3 h4 => hbefore j' (by omega) h4)]
      have : j - i = (j - (i + 1)) + 1 := by omega
      rw [this, createdHandles_succ]
      simp

/-- A successful loop means that every open of its iterations succeeded. -/
theorem createPool_loop_true (type : ConnectionType) (opens : Nat → Bool) (n : Nat) :
    ∀ (i : Nat) (pool : ConnectionDBPool),
      (ConnectionDBPool.createPool.loop type opens n i pool).1 = true →
      ∀ j, i ≤ j → j < i + n → opens j = true := by
  induction n with
  | zero => intro i pool _ j h1 h2; omega
  | succ n ih =>
    intro i pool h j h1 h2
    rw [ConnectionDBPool.createPool.loop] at h
    by_cases hi : opens i = true
    · simp only [hi, Bool.not_true, Bool.false_eq_true, if_false] at h
      by_cases hij : i = j
      · subst hij; exact hi
      · exact ih (i + 1) _ h j (by omega) (by omega)
    · simp [hi] at h

/-- The handles `createPool` makes for a pool of `N` handles. -/
theorem createPool_success (type : ConnectionType) (N : Nat) (opens : Nat → Bool)
    (pool : ConnectionDBPool)
    (h : ConnectionDBPool.createPool ConnectionDBPool.new type (N : Int) opens = (true, pool)) :
    pool.connections = ConnectionDBPool.createdHandles type 0 N := by
  rw [createPool_eq_loop] at h
  simp only [Int.toNat_ofNat] at h
  have hall := createPool_loop_true type opens N 0 ConnectionDBPool.new (by rw [h])
  rw [createPool_loop_all type opens N 0 _ (fun j h1 h2 => hall j h1 h2)] at h
  have := (Prod.mk.inj h).2
  rw [← this]
  simp [ConnectionDBPool.new]

theorem createdHandles_nodup (type : ConnectionType) (i n : Nat) :
    (ConnectionDBPool.createdHandles type i n).Nodup := by
  unfold ConnectionDBPool.createdHandles
  apply List.Nodup.map
  · intro a b hab
    exact congrArg ConnectionDB.id hab
  · exact List.nodup_range' i n

theorem createdHandles_length (type : ConnectionType) (i n : Nat) :
    (ConnectionDBPool.createdHandles type i n).length = n := by
  simp [ConnectionDBPool.createdHandles]

/-! ## Conservation of the handles of a pool -/

/-- Releasing one lease on a live pool keeps the handles: queue and leases together hold
what they held before, up to order. -/
theorem releaseAt_perm (leases : List TempConnectionDB) :
    ∀ (i : Nat) (idle : ConnectionDBPool),
      ∃ idle2 : ConnectionDBPool,
        (PoolWorld.releaseAt i leases (some idle)).2 = some idle2
        ∧ (idle2.connections
            ++ (PoolWorld.releaseAt i leases (some idle)).1.filterMap (fun t => t.conn)).Perm
          (idle.connections ++ leases.filterMap (fun t => t.conn)) := by
  induction leases with
  | nil => intro i idle; exact ⟨idle, by simp [PoolWorld.releaseAt]⟩
  | cons t ts ih =>
    intro i idle
    cases i with
    | zero =>
      rcases t with ⟨conn, pointer⟩
      cases conn with
      | none =>
        exact ⟨idle, by simp [PoolWorld.releaseAt, TempConnectionDB.returnToPoolDB]⟩
      | some c =>
        cases pointer with
        | false =>
          exact ⟨idle, by
            simp [PoolWorld.releaseAt, TempConnectionDB.returnToPoolDB, TempConnectionDB.expired]⟩
        | true =>
          exact ⟨idle.freeConnection c, by
            simp [PoolWorld.releaseAt, TempConnectionDB.returnToPoolDB, TempConnectionDB.expired,
              TempConnectionDB.lock, ConnectionDBPool.freeConnection]⟩
    | succ i =>
      obtain ⟨idle2, h1, h2⟩ := ih i idle
      refine ⟨idle2, by simp [PoolWorld.releaseAt, h1], ?_⟩
      simp only [PoolWorld.releaseAt]
      cases hc : t.conn with
      | none => simpa [List.filterMap_cons, hc] using h2
      | some c =>
        simp only [List.filterMap_cons, hc]
        exact (List.perm_middle.trans ((List.Perm.cons c h2).trans List.perm_middle.symm))

/-- One step on a live pool keeps the pool alive and keeps the handles. -/
theorem step_perm (w : PoolWorld) (idle : ConnectionDBPool) (hw : w.pool = some idle)
    (s : PoolStep) :
    ∃ idle2 : ConnectionDBPool, (w.step s).pool = some idle2
      ∧ (idle2.connections ++ (w.step s).held).Perm (idle.connections ++ w.held) := by
  cases s with
  | acquire =>
    rcases idle with ⟨q⟩
    cases q with
    | nil =>
      exact ⟨⟨[]⟩, by simp [PoolWorld.step, hw, ConnectionDBPool.connection], by
        simp [PoolWorld.step, hw, ConnectionDBPool.connection]⟩
    | cons c rest =>
      refine ⟨⟨rest⟩, by simp [PoolWorld.step, hw, ConnectionDBPool.connection], ?_⟩
      simp only [PoolWorld.step, hw, ConnectionDBPool.connection, PoolWorld.held,
        List.filterMap_append, List.filterMap_cons, List.filterMap_nil]
      rw [← List.append_assoc]
      exact List.perm_append_singleton c _
  | release i =>
    obtain ⟨idle2, h1, h2⟩ := releaseAt_perm w.leases i idle
    refine ⟨idle2, by simp [PoolWorld.step, hw, h1], ?_⟩
    simpa [PoolWorld.step, hw, PoolWorld.held] using h2

/-- Any finite run on a live pool keeps the pool alive and keeps the handles. -/
theorem run_perm (steps : List PoolStep) :
    ∀ (w : PoolWorld) (idle : ConnectionDBPool), w.pool = some idle →
      ∃ idle2 : ConnectionDBPool, (w.run steps).pool = some idle2
        ∧ (idle2.connections ++ (w.run steps).held).Perm (idle.connections ++ w.held) := by
  induction steps with
  | nil => intro w idle hw; exact ⟨idle, by simpa [PoolWorld.run] using hw, by simp [PoolWorld.run]⟩
  | cons s rest ih =>
    intro w idle hw
    obtain ⟨idle1, h1, p1⟩ := step_perm w idle hw s
    obtain ⟨idle2, h2, p2⟩ := ih (w.step s) idle1 h1
    exact ⟨idle2, by simpa [PoolWorld.run] using h2, by
      simpa [PoolWorld.run] using p2.trans p1⟩

/-- C1: after a pool is created with `N` handles, every finite sequence of acquires (taken
when the idle queue is not empty) and lease releases leaves the pool alive with the idle
queue and the handles on loan disjoint, each without repetition, and together exactly the
`N` handles created; the handle of the next acquire is not one that is on loan. -/
theorem pool_conservation (type : ConnectionType) (N : Nat) (opens : Nat → Bool)
    (pool : ConnectionDBPool)
    (hcreate : ConnectionDBPool.createPool ConnectionDBPool.new type (N : Int) opens
      = (true, pool))
    (steps : List PoolStep) :
    ∃ idle : ConnectionDBPool,
      (PoolWorld.run ⟨some pool, []⟩ steps).pool = some idle
      ∧ List.Disjoint idle.connections (PoolWorld.run ⟨some pool, []⟩ steps).held
      ∧ idle.connections.Nodup
      ∧ (PoolWorld.run ⟨some pool, []⟩ steps).held.Nodup
      ∧ (idle.connections ++ (PoolWorld.run ⟨some pool, []⟩ steps).held).Perm
          (ConnectionDBPool.createdHandles type 0 N)
      ∧ (idle.connections ++ (PoolWorld.run ⟨some pool, []⟩ steps).held).length = N
      ∧ (∀ r, idle.connection = some r → ∀ c, r.1.conn = some c →
          c ∉ (PoolWorld.run ⟨some pool, []⟩ steps).held) := by
  obtain ⟨idle, h1, h2⟩ := run_perm steps ⟨some pool, []⟩ pool rfl
  have hperm : (idle.connections ++ (PoolWorld.run ⟨some pool, []⟩ steps).held).Perm
      (ConnectionDBPool.createdHandles type 0 N) := by
    rw [← createPool_success type N opens pool hcreate]
    simpa [PoolWorld.held] using h2
  have hnodup := (hperm.nodup_iff).mpr (createdHandles_nodup type 0 N)
  have hdisj : List.Disjoint idle.connections (PoolWorld.run ⟨some pool, []⟩ steps).held :=
    (List.nodup_append.mp hnodup).2.2
  refine ⟨idle, h1, hdisj, (List.nodup_append.mp hnodup).1, (List.nodup_append.mp hnodup).2.1,
    hperm, ?_, ?_⟩
  · rw [hperm.length_eq, createdHandles_length]
  · intro r hr c hc hmem
    rcases idle with ⟨q⟩
    cases q with
    | nil => simp [ConnectionDBPool.connection] at hr
    | cons d rest =>
      simp only [ConnectionDBPool.connection, Option.some.injEq] at hr
      subst hr
      simp only [Option.some.injEq] at hc
      subst hc
      exact hdisj (List.mem_cons_self _ _) hmem

/-- C1, at a pool of two handles: two acquires, then the release of the first lease. -/
theorem pool_conservation_witness :
    ConnectionDBPool.createPool ConnectionDBPool.new ConnectionType.SQLite ((2 : Nat) : Int)
        (fun _ => true)
      = (true, ⟨[⟨0, ConnectionType.SQLite⟩, ⟨1, ConnectionType.SQLite⟩]⟩)
    ∧ ∃ idle : ConnectionDBPool,
      (PoolWorld.run ⟨some ⟨[⟨0, ConnectionType.SQLite⟩, ⟨1, ConnectionType.SQLite⟩]⟩, []⟩
        [PoolStep.acquire, PoolStep.acquire, PoolStep.release 0]).pool = some idle
      ∧ List.Disjoint idle.connections
          (PoolWorld.run ⟨some ⟨[⟨0, ConnectionType.SQLite⟩, ⟨1, ConnectionType.SQLite⟩]⟩, []⟩
            [PoolStep.acquire, PoolStep.acquire, PoolStep.release 0]).held
      ∧ (idle.connections
          ++ (PoolWorld.run ⟨some ⟨[⟨0, ConnectionType.SQLite⟩, ⟨1, ConnectionType.SQLite⟩]⟩, []⟩
            [PoolStep.acquire, PoolStep.acquire, PoolStep.release 0]).held).Perm
          (ConnectionDBPool.createdHandles ConnectionType.SQLite 0 2) := by
  refine ⟨by decide, ?_⟩
  obtain ⟨idle, h1, h2, _, _, h5, _⟩ := pool_conservation ConnectionType.SQLite 2 (fun _ => true)
    ⟨[⟨0, ConnectionType.SQLite⟩, ⟨1, ConnectionType.SQLite⟩]⟩ (by decide)
    [PoolStep.acquire, PoolStep.acquire, PoolStep.release 0]
  exact ⟨idle, h1, h2, h5⟩

/-! ## Release of a lease -/

/-- On a pool that still exists, `returnToPoolDB` on a lease taken from it leaves the lease
without a handle, and hands a handle it owned to the back of the idle queue. -/
theorem returnToPoolDB_live (t : TempConnectionDB) (pool : ConnectionDBPool)
    (ht : t.pointer = true) :
    (t.returnToPoolDB (some pool)).1.conn = none
    ∧ (t.returnToPoolDB (some pool)).1.isValid = false
    ∧ (∀ c, t.conn = some c →
        (t.returnToPoolDB (some pool)).2 = some ⟨pool.connections ++ [c]⟩) := by
  rcases t with ⟨conn, pointer⟩
  simp only at ht
  subst ht
  cases conn <;>
    simp [TempConnectionDB.returnToPoolDB, TempConnectionDB.expired, TempConnectionDB.lock,
      TempConnectionDB.isValid, ConnectionDBPool.freeConnection]

/-- Once the pool is destroyed, `returnToPoolDB` returns at `pointer.expired()` and changes
nothing: a lease that owns a handle goes on owning it. -/
theorem returnToPoolDB_destroyed (t : TempConnectionDB) :
    t.returnToPoolDB none = (t, none) := by
  rcases t with ⟨conn, pointer⟩
  cases conn <;> simp [TempConnectionDB.returnToPoolDB, TempConnectionDB.expired]

/-- A lease without a handle answers every forwarded operation with the fallback value. -/
theorem forward_of_conn_none {α : Type} (t : TempConnectionDB) (h : t.conn = none)
    (method : ConnectionDB → α) (fallback : α) : t.forward method fallback = fallback := by
  simp [TempConnectionDB.forward, h]

/-- C4, at the input where it fails: a lease that owns handle 0 of a pool that has been
destroyed. `returnToPoolDB` returns with the lease unchanged, so `isValid()` is still true
and the operations are still forwarded to the handle (here `execute` and `fieldCount`),
where the claim has the handle dropped. -/
theorem returnToPoolDB_destroyed_pool_keeps_handle :
    TempConnectionDB.returnToPoolDB ⟨some ⟨0, ConnectionType.SQLite⟩, true⟩ none
      = (⟨some ⟨0, ConnectionType.SQLite⟩, true⟩, none)
    ∧ (TempConnectionDB.returnToPoolDB ⟨some ⟨0, ConnectionType.SQLite⟩, true⟩ none).1.isValid
      = true
    ∧ (TempConnectionDB.returnToPoolDB ⟨some ⟨0, ConnectionType.SQLite⟩, true⟩ none).1.execute
        (fun _ => true) = true
    ∧ (TempConnectionDB.returnToPoolDB ⟨some ⟨0, ConnectionType.SQLite⟩, true⟩ none).1.fieldCount
        (fun _ => 2) = 2 := by
  decide

/-- C5: `returnToPoolDB` is idempotent. For every lease and every state of its pool (alive
or destroyed), a second call right after the first changes neither the lease nor the pool,
the destructor after an explicit release leaves the pool as it is, and over both calls the
idle queue is either unchanged or has gained the handle of the lease once, at its back. -/
theorem returnToPoolDB_idempotent (t : TempConnectionDB) (pool : Option ConnectionDBPool) :
    (t.returnToPoolDB pool).1.returnToPoolDB (t.returnToPoolDB pool).2 = t.returnToPoolDB pool
    ∧ (t.returnToPoolDB pool).1.destroy (t.returnToPoolDB pool).2 = (t.returnToPoolDB pool).2
    ∧ (((t.returnToPoolDB pool).1.returnToPoolDB (t.returnToPoolDB pool).2).2 = pool
        ∨ ∃ c p, t.conn = some c ∧ pool = some p
            ∧ ((t.returnToPoolDB pool).1.returnToPoolDB (t.returnToPoolDB pool).2).2
                = some ⟨p.connections ++ [c]⟩) := by
  rcases t with ⟨conn, pointer⟩
  cases conn with
  | none => simp [TempConnectionDB.returnToPoolDB, TempConnectionDB.destroy]
  | some c =>
    cases pool with
    | none =>
      simp [TempConnectionDB.returnToPoolDB, TempConnectionDB.destroy, TempConnectionDB.expired]
    | some p =>
      cases pointer <;>
        simp [TempConnectionDB.returnToPoolDB, TempConnectionDB.destroy,
          TempConnectionDB.expired, TempConnectionDB.lock, ConnectionDBPool.freeConnection]

/-! ## Acquire followed by release -/

theorem roundTrip_cons (c : ConnectionDB) (rest : List ConnectionDB) :
    ConnectionDBPool.roundTrip ⟨c :: rest⟩ = some ⟨rest ++ [c]⟩ := by
  simp [ConnectionDBPool.roundTrip, ConnectionDBPool.connection,
    TempConnectionDB.returnToPoolDB, TempConnectionDB.expired, TempConnectionDB.lock,
    ConnectionDBPool.freeConnection]

theorem roundTrips_perm (M : Nat) :
    ∀ pool : ConnectionDBPool, pool.connections ≠ [] →
      ∃ p : ConnectionDBPool, ConnectionDBPool.roundTrips M pool = some p
        ∧ p.connections.Perm pool.connections := by
  induction M with
  | zero => intro pool _; exact ⟨pool, rfl, List.Perm.refl _⟩
  | succ M ih =>
    intro pool hne
    rcases pool with ⟨q⟩
    cases q with
    | nil => exact absurd rfl hne
    | cons c rest =>
      obtain ⟨p, h1, h2⟩ := ih ⟨rest ++ [c]⟩ (by simp)
      refine ⟨p, by simp [ConnectionDBPool.roundTrips, roundTrip_cons, h1], ?_⟩
      exact h2.trans (List.perm_append_singleton c rest)

/-- C6: on a live pool whose idle queue is not empty, an acquire followed by the release of
the lease returns, and leaves the idle queue with the same handles as a multiset; `M` such
round trips in a row, for any `M`, all return and leave the same handles, so the same idle
count. -/
theorem roundTrip_restores_idle (pool : ConnectionDBPool) (hne : pool.connections ≠ [])
    (M : Nat) :
    (∃ p : ConnectionDBPool, pool.roundTrip = some p ∧ p.connections.Perm pool.connections)
    ∧ (∃ p : ConnectionDBPool, ConnectionDBPool.roundTrips M pool = some p
        ∧ p.connections.Perm pool.connections
        ∧ p.connections.length = pool.connections.length) := by
  constructor
  · rcases pool with ⟨q⟩
    cases q with
    | nil => exact absurd rfl hne
    | cons c rest => exact ⟨⟨rest ++ [c]⟩, roundTrip_cons c rest, List.perm_append_singleton c rest⟩
  · obtain ⟨p, h1, h2⟩ := roundTrips_perm M pool hne
    exact ⟨p, h1, h2, h2.length_eq⟩

/-- C6, at a pool of three idle handles and three round trips. -/
theorem roundTrip_restores_idle_witness :
    (⟨[⟨0, ConnectionType.PostgreSQL⟩, ⟨1, ConnectionType.PostgreSQL⟩,
        ⟨2, ConnectionType.PostgreSQL⟩]⟩ : ConnectionDBPool).connections ≠ []
    ∧ (∃ p : ConnectionDBPool,
        ConnectionDBPool.roundTrips 3
          ⟨[⟨0, ConnectionType.PostgreSQL⟩, ⟨1, ConnectionType.PostgreSQL⟩,
            ⟨2, ConnectionType.PostgreSQL⟩]⟩ = some p
        ∧ p.connections.length = 3) := by
  have h := roundTrip_restores_idle
    ⟨[⟨0, ConnectionType.PostgreSQL⟩, ⟨1, ConnectionType.PostgreSQL⟩,
      ⟨2, ConnectionType.PostgreSQL⟩]⟩ (by decide) 3
  obtain ⟨p, h1, _, h3⟩ := h.2
  exact ⟨by decide, p, h1, h3⟩

/-! ## The registry -/

theorem findEntries_assignEntries_self (key : List Char) (value : Option ConnectionDBPool)
    (es : List (List Char × Option ConnectionDBPool)) :
    PoolMap.findEntries key (PoolMap.assignEntries key value es) = some value := by
  induction es with
  | nil => simp [PoolMap.assignEntries, PoolMap.findEntries]
  | cons e rest ih =>
    by_cases h : e.1 = key
    · simp [PoolMap.assignEntries, PoolMap.findEntries, h]
    · simp [PoolMap.assignEntries, PoolMap.findEntries, h, ih]

theorem findEntries_assignEntries_other (key other : List Char)
    (value : Option ConnectionDBPool) (hne : other ≠ key)
    (es : List (List Char × Option ConnectionDBPool)) :
    PoolMap.findEntries other (PoolMap.assignEntries key value es)
      = PoolMap.findEntries other es := by
  induction es with
  | nil => simp [PoolMap.assignEntries, PoolMap.findEntries, Ne.symm hne]
  | cons e rest ih =>
    by_cases h : e.1 = key
    · have : ¬ e.1 = other := by rw [h]; exact Ne.symm hne
      simp [PoolMap.assignEntries, PoolMap.findEntries, h, Ne.symm hne]
    · rw [PoolMap.assignEntries, if_neg h]
      by_cases h2 : e.1 = other
      · simp [PoolMap.findEntries, h2]
      · simp [PoolMap.findEntries, h2, ih]

/-- C7: a failed `open` leaves the name to pool map exactly as it was; `open` returns true
exactly when the name had no entry and `createPool` succeeded, and then the new pool is the
one registered under the name while every other name keeps its entry. -/
theorem open_atomic (pools : PoolMap) (connectionName : List Char) (type : ConnectionType)
    (poolCount : Int) (opens : Nat → Bool) :
    ((Registry.open_ pools connectionName type poolCount opens).1 = false →
      (Registry.open_ pools connectionName type poolCount opens).2 = pools)
    ∧ ((Registry.open_ pools connectionName type poolCount opens).1 = true ↔
        (pools.contains connectionName = false
          ∧ (ConnectionDBPool.createPool ConnectionDBPool.new type poolCount opens).1 = true))
    ∧ ((Registry.open_ pools connectionName type poolCount opens).1 = true →
        (Registry.open_ pools connectionName type poolCount opens).2.find connectionName
            = some (some (ConnectionDBPool.createPool ConnectionDBPool.new type poolCount
                opens).2)
        ∧ ∀ other, other ≠ connectionName →
            (Registry.open_ pools connectionName type poolCount opens).2.find other
              = pools.find other) := by
  unfold Registry.open_
  by_cases hc : pools.contains connectionName = true
  · simp [hc]
  · by_cases hp : (ConnectionDBPool.createPool ConnectionDBPool.new type poolCount opens).1 = true
    · simp only [hc, hp, Bool.false_eq_true, if_false, Bool.not_true]
      refine ⟨by simp, by simp [hc], fun _ => ⟨?_, ?_⟩⟩
      · exact findEntries_assignEntries_self _ _ _
      · intro other hne
        exact findEntries_assignEntries_other _ _ _ hne _
    · simp [hc, hp]

/-- A lookup of a name that has no entry returns the empty lease, and leaves an entry with
a null pool under that name: the name then counts as open, and `open` on it fails. -/
theorem connection_miss_registers_name (pools : PoolMap) (connectionName : List Char)
    (hmiss : pools.contains connectionName = false) :
    Registry.connection pools connectionName
      = some (TempConnectionDB.empty, pools.assign connectionName none)
    ∧ Registry.isOpen (pools.assign connectionName none) connectionName = true
    ∧ ∀ type poolCount opens,
        Registry.open_ (pools.assign connectionName none) connectionName type poolCount opens
          = (false, pools.assign connectionName none) := by
  have hfind : pools.find connectionName = none := by
    simpa [PoolMap.contains] using hmiss
  have hc : (pools.assign connectionName none).contains connectionName = true := by
    simp [PoolMap.contains, PoolMap.find, PoolMap.assign, findEntries_assignEntries_self]
  refine ⟨by simp [Registry.connection, PoolMap.index, hfind], by simpa [Registry.isOpen] using hc,
    ?_⟩
  intro type poolCount opens
  simp [Registry.open_, hc]

/-- C8, at the input where it fails: the empty registry and the name `db`. The lookup
`connection("db")` returns the empty lease but inserts an entry for `db` (the read
`pools[name]`), so that afterwards `isOpen("db")` is true and an `open("db", ..)` whose
pool creation would succeed returns false. -/
theorem connection_unknown_name_inserts_entry :
    Registry.isOpen ⟨[]⟩ ['d', 'b'] = false
    ∧ Registry.connection ⟨[]⟩ ['d', 'b']
        = some (TempConnectionDB.empty, ⟨[(['d', 'b'], none)]⟩)
    ∧ Registry.isOpen ⟨[(['d', 'b'], none)]⟩ ['d', 'b'] = true
    ∧ (ConnectionDBPool.createPool ConnectionDBPool.new ConnectionType.SQLite 1
        (fun _ => true)).1 = true
    ∧ Registry.open_ ⟨[(['d', 'b'], none)]⟩ ['d', 'b'] ConnectionType.SQLite 1 (fun _ => true)
        = (false, ⟨[(['d', 'b'], none)]⟩) := by
  decide

/-! ## The size ceiling and failed opens in `createPool` -/

/-- C9, at the inputs where it fails: with every open succeeding, `createPool` for 1025
handles returns true with 1025 idle handles, and for the count -1 it returns true with an
empty queue; the guard on the count never holds. -/
theorem createPool_accepts_out_of_range :
    ConnectionDBPool.createPool ConnectionDBPool.new ConnectionType.SQLite 1025 (fun _ => true)
      = (true, ⟨ConnectionDBPool.createdHandles ConnectionType.SQLite 0 1025⟩)
    ∧ (ConnectionDBPool.createPool ConnectionDBPool.new ConnectionType.SQLite 1025
        (fun _ => true)).2.connections.length = 1025
    ∧ ConnectionDBPool.createPool ConnectionDBPool.new ConnectionType.SQLite (-1)
        (fun _ => true) = (true, ConnectionDBPool.new) := by
  have h : ConnectionDBPool.createPool ConnectionDBPool.new ConnectionType.SQLite 1025
      (fun _ => true)
      = (true, ⟨ConnectionDBPool.createdHandles ConnectionType.SQLite 0 1025⟩) := by
    rw [createPool_eq_loop, createPool_loop_all _ _ _ _ _ (fun _ _ _ => rfl)]
    simp [ConnectionDBPool.new]
  refine ⟨h, ?_, ?_⟩
  · rw [h]
    exact createdHandles_length _ _ _
  · rw [createPool_eq_loop]
    rfl

/-- C10 as stated fails: with two handles asked for and the second open failing,
`createPool` returns false but the handle opened first is still in the idle queue. -/
theorem createPool_keeps_opened_handles :
    (fun i : Nat => decide (i = 0)) 1 = false
    ∧ ConnectionDBPool.createPool ConnectionDBPool.new ConnectionType.SQLite 2
        (fun i => decide (i = 0)) = (false, ⟨[⟨0, ConnectionType.SQLite⟩]⟩)
    ∧ (ConnectionDBPool.createPool ConnectionDBPool.new ConnectionType.SQLite 2
        (fun i => decide (i = 0))).2.connections ≠ [] := by
  decide

/-- C10, amended: for a count from 0 to 1024, if one of the opens fails then `createPool`
returns false with the idle queue holding exactly the handles opened before the first
failure, and `open` of the registry, which discards that pool, registers nothing; if all
the opens succeed it returns true with exactly `poolCount` idle handles, at most 1024. -/
theorem createPool_all_or_nothing (type : ConnectionType) (poolCount : Int)
    (opens : Nat → Bool) (h0 : 0 ≤ poolCount) (h1 : poolCount ≤ MAX_POOL_COUNT) :
    ((∃ j : Nat, (j : Int) < poolCount ∧ opens j = false) →
      ∃ j0 : Nat, (j0 : Int) < poolCount ∧ opens j0 = false ∧ (∀ j, j < j0 → opens j = true)
        ∧ ConnectionDBPool.createPool ConnectionDBPool.new type poolCount opens
            = (false, ⟨ConnectionDBPool.createdHandles type 0 j0⟩)
        ∧ ∀ pools connectionName,
            Registry.open_ pools connectionName type poolCount opens = (false, pools))
    ∧ ((∀ j : Nat, (j : Int) < poolCount → opens j = true) →
        ConnectionDBPool.createPool ConnectionDBPool.new type poolCount opens
            = (true, ⟨ConnectionDBPool.createdHandles type 0 poolCount.toNat⟩)
        ∧ (((ConnectionDBPool.createPool ConnectionDBPool.new type poolCount
              opens).2.connections.length : Nat) : Int) = poolCount
        ∧ (((ConnectionDBPool.createPool ConnectionDBPool.new type poolCount
              opens).2.connections.length : Nat) : Int) ≤ MAX_POOL_COUNT) := by
  constructor
  · intro hex
    classical
    have hex2 : ∃ j : Nat, j < poolCount.toNat ∧ opens j = false := by
      obtain ⟨j, hj, hf⟩ := hex
      exact ⟨j, by omega, hf⟩
    have hlt := (Nat.find_spec hex2).1
    have hf := (Nat.find_spec hex2).2
    have hmin : ∀ j, j < Nat.find hex2 → opens j = true := by
      intro j hj
      have := Nat.find_min hex2 hj
      have hjlt : j < poolCount.toNat := by omega
      cases hb : opens j with
      | true => rfl
      | false => exact absurd ⟨hjlt, hb⟩ this
    have hres : ConnectionDBPool.createPool ConnectionDBPool.new type poolCount opens
        = (false, ⟨ConnectionDBPool.createdHandles type 0 (Nat.find hex2)⟩) := by
      rw [createPool_eq_loop, createPool_loop_fail type opens poolCount.toNat 0 _ (Nat.find hex2)
        (Nat.zero_le _) (by omega) hf (fun j _ h => hmin j h)]
      simp [ConnectionDBPool.new]
    refine ⟨Nat.find hex2, by omega, hf, hmin, hres, ?_⟩
    intro pools connectionName
    unfold Registry.open_
    rw [hres]
    simp
  · intro hall
    have hres : ConnectionDBPool.createPool ConnectionDBPool.new type poolCount opens
        = (true, ⟨ConnectionDBPool.createdHandles type 0 poolCount.toNat⟩) := by
      rw [createPool_eq_loop, createPool_loop_all type opens poolCount.toNat 0 _
        (fun j _ h => hall j (by omega))]
      simp [ConnectionDBPool.new]
    have hlen : (((ConnectionDBPool.createPool ConnectionDBPool.new type poolCount
        opens).2.connections.length : Nat) : Int) = poolCount := by
      rw [hres]
      simp only [createdHandles_length]
      omega
    exact ⟨hres, hlen, by rw [hlen]; exact h1⟩

/-- C10 amended, at two handles: with the second open failing the queue keeps the first
handle and `createPool` returns false; with both opens succeeding it returns true with two
idle handles. -/
theorem createPool_all_or_nothing_witness :
    (0 : Int) ≤ 2 ∧ (2 : Int) ≤ MAX_POOL_COUNT
    ∧ (∃ j0 : Nat, (j0 : Int) < 2 ∧ (fun i : Nat => decide (i = 0)) j0 = false
        ∧ ConnectionDBPool.createPool ConnectionDBPool.new ConnectionType.SQLite 2
            (fun i => decide (i = 0))
          = (false, ⟨ConnectionDBPool.createdHandles ConnectionType.SQLite 0 j0⟩))
    ∧ ConnectionDBPool.createPool ConnectionDBPool.new ConnectionType.SQLite 2 (fun _ => true)
        = (true, ⟨ConnectionDBPool.createdHandles ConnectionType.SQLite 0 2⟩) := by
  refine ⟨by decide, by decide, ?_, ?_⟩
  · obtain ⟨j0, h1, h2, _, h4, _⟩ :=
      (createPool_all_or_nothing ConnectionType.SQLite 2 (fun i => decide (i = 0))
        (by decide) (by decide)).1 ⟨1, by decide, by decide⟩
    exact ⟨j0, h1, h2, h4⟩
  · exact ((createPool_all_or_nothing ConnectionType.SQLite 2 (fun _ => true)
      (by decide) (by decide)).2 (fun _ _ => rfl)).1

/-! ## Literal escaping -/

theorem sqlEscaping_loop_eq (value : List Char) :
    ∀ ret : List Char, ConnectionDB.sqlEscaping.loop value ret = ret ++ doubleQuotes value := by
  induction value with
  | nil => intro ret; simp [ConnectionDB.sqlEscaping.loop, doubleQuotes]
  | cons v rest ih =>
    intro ret
    by_cases h : v = SINGLE_QUOTE
    · simp [ConnectionDB.sqlEscaping.loop, doubleQuotes, h, ih]
    · simp [ConnectionDB.sqlEscaping.loop, doubleQuotes, h, ih]

theorem sqlEscaping_eq (value : List Char) :
    ConnectionDB.sqlEscaping value = SINGLE_QUOTE :: (doubleQuotes value ++ [SINGLE_QUOTE]) := by
  simp [ConnectionDB.sqlEscaping, sqlEscaping_loop_eq]

theorem doubleQuotes_length (value : List Char) :
    (doubleQuotes value).length = value.length + value.count SINGLE_QUOTE := by
  induction value with
  | nil => simp [doubleQuotes]
  | cons v rest ih =>
    by_cases h : v = SINGLE_QUOTE
    · subst h
      simp [doubleQuotes, ih]
      omega
    · have h2 : ¬ (v == SINGLE_QUOTE) = true := by simpa using h
      simp [doubleQuotes, h, ih, List.count_cons, h2]
      omega

theorem collapseQuotes_cons_of_ne (c : Char) (h : c ≠ SINGLE_QUOTE) (l : List Char) :
    collapseQuotes (c :: l) = c :: collapseQuotes l := by
  cases l with
  | nil => simp [collapseQuotes]
  | cons d rest => simp [collapseQuotes, h]

theorem collapseQuotes_doubleQuotes (value : List Char) :
    collapseQuotes (doubleQuotes value) = value := by
  induction value with
  | nil => simp [doubleQuotes, collapseQuotes]
  | cons v rest ih =>
    by_cases h : v = SINGLE_QUOTE
    · subst h
      simp [doubleQuotes, collapseQuotes, ih]
    · simp [doubleQuotes, h, collapseQuotes_cons_of_ne v h, ih]

theorem unescape_sqlEscaping (value : List Char) :
    unescape (ConnectionDB.sqlEscaping value) = value := by
  rw [sqlEscaping_eq]
  simp [unescape, List.dropLast_concat, collapseQuotes_doubleQuotes]

/-- C15: for every text `value`, `sqlEscaping value` is a single quote, then the text with
every single quote doubled and every other character unchanged, then a single quote; its
length is the length of the text plus 2 plus the number of its single quotes; stripping
the outer quotes and collapsing the doubled quotes gives the text back; and `sqlEscaping`
is injective. -/
theorem sqlEscaping_lossless (value : List Char) :
    ConnectionDB.sqlEscaping value = SINGLE_QUOTE :: (doubleQuotes value ++ [SINGLE_QUOTE])
    ∧ (ConnectionDB.sqlEscaping value).length = value.length + 2 + value.count SINGLE_QUOTE
    ∧ unescape (ConnectionDB.sqlEscaping value) = value
    ∧ (∀ other : List Char,
        ConnectionDB.sqlEscaping value = ConnectionDB.sqlEscaping other → value = other) := by
  refine ⟨sqlEscaping_eq value, ?_, unescape_sqlEscaping value, ?_⟩
  · rw [sqlEscaping_eq]
    simp [doubleQuotes_length]
    omega
  · intro other h
    have := congrArg unescape h
    rwa [unescape_sqlEscaping, unescape_sqlEscaping] at this

/-! ## Streaming fetch on the client/server adapter -/

theorem PQclear_pending (s : PGconn) (res : Option PGresult) :
    (PQclear s res).pending = s.pending := by
  cases res <;> rfl

theorem PQclear_errorMessage (s : PGconn) (res : Option PGresult) :
    (PQclear s res).errorMessage = s.errorMessage := by
  cases res <;> rfl

theorem PQclear_peak (s : PGconn) (res : Option PGresult) : (PQclear s res).peak = s.peak := by
  cases res <;> rfl

/-- When the one live result is the result in hand, `PQclear` of it leaves none. -/
theorem PQclear_live (s : PGconn) (res : Option PGresult) (h : s.live = res.toList.length) :
    (PQclear s res).live = 0 := by
  cases res with
  | none => simpa [PQclear] using h
  | some r =>
    have : s.live = 1 := by simpa using h
    simp [PQclear, this]

theorem PQgetResult_nil (s : PGconn) (h : s.pending = []) : PQgetResult s = (none, s) := by
  simp [PQgetResult, h]

theorem PQgetResult_cons (s : PGconn) (r : PGresult) (rest : List PGresult)
    (h : s.pending = r :: rest) :
    PQgetResult s
      = (some r, ⟨rest, s.errorMessage, s.live + 1, max s.peak (s.live + 1)⟩) := by
  simp [PQgetResult, h, PGconn.handOut]

/-- The drain loop returns within its bound: nothing is left pending, the result in hand
and every result fetched on the way have been released, and never more than one of them
was live beside the results that were live at the start. -/
theorem drainResults_loop_spec (fuel : Nat) :
    ∀ (s : PGconn) (res : PGresult), s.pending.length < fuel →
      (drainResults.loop fuel s res).pending = []
      ∧ (drainResults.loop fuel s res).errorMessage = s.errorMessage
      ∧ (drainResults.loop fuel s res).live = s.live - 1
      ∧ (drainResults.loop fuel s res).peak ≤ max s.peak (s.live - 1 + 1) := by
  induction fuel with
  | zero => intro s res h; omega
  | succ fuel ih =>
    intro s res h
    cases hp : s.pending with
    | nil =>
      have hg := PQgetResult_nil (PQclear s (some res)) (by rw [PQclear_pending]; exact hp)
      simp only [drainResults.loop, hg]
      refine ⟨by rw [PQclear_pending]; exact hp, PQclear_errorMessage _ _, by simp [PQclear], ?_⟩
      rw [PQclear_peak]
      exact Nat.le_max_left _ _
    | cons r rest =>
      have hg := PQgetResult_cons (PQclear s (some res)) r rest
        (by rw [PQclear_pending]; exact hp)
      have hlen : rest.length < fuel := by
        rw [hp] at h
        simpa using h
      obtain ⟨h1, h2, h3, h4⟩ := ih
        ⟨rest, (PQclear s (some res)).errorMessage, (PQclear s (some res)).live + 1,
          max (PQclear s (some res)).peak ((PQclear s (some res)).live + 1)⟩ r hlen
      simp only [drainResults.loop, hg]
      refine ⟨h1, by rw [h2, PQclear_errorMessage], ?_, ?_⟩
      · rw [h3]
        simp [PQclear]
      · refine le_trans h4 ?_
        simp only [PQclear]
        have e : s.live - 1 + 1 - 1 + 1 = s.live - 1 + 1 := by omega
        rw [e]
        exact max_le (le_refl _) (Nat.le_max_right _ _)

theorem drainResults_spec (s : PGconn) (res : PGresult) :
    (drainResults s res).pending = []
    ∧ (drainResults s res).errorMessage = s.errorMessage
    ∧ (drainResults s res).live = s.live - 1
    ∧ (drainResults s res).peak ≤ max s.peak (s.live - 1 + 1) :=
  drainResults_loop_spec (s.pending.length + 1) s res (Nat.lt_succ_self _)

/-- In single-row mode, with a row already delivered (`next_pos` not 0), `next()` on a
pending single-tuple result releases the result in hand, makes the fetched one the current
result and returns true; one result is live afterwards. -/
theorem next_pull_row (c : ConnectionPostgreSQL) (s : PGconn) (r : PGresult)
    (rest : List PGresult) (hmode : c.singleRow = true) (hsingle : c.isSingleRow ≠ 0)
    (hconn : c.conn = true) (hpos : c.next_pos ≠ 0) (hpending : s.pending = r :: rest)
    (hr : r.status = ExecStatusType.PGRES_SINGLE_TUPLE)
    (hlive : s.live = c.res.toList.length) (hpeak : s.peak ≤ 1) :
    ∃ s2 : PGconn, c.next s = (true, { c with res := some r }, s2)
      ∧ s2.pending = rest ∧ s2.live = 1 ∧ s2.peak ≤ 1 := by
  have hg := PQgetResult_cons (PQclear s c.res) r rest (by rw [PQclear_pending]; exact hpending)
  refine ⟨⟨rest, (PQclear s c.res).errorMessage, (PQclear s c.res).live + 1,
    max (PQclear s c.res).peak ((PQclear s c.res).live + 1)⟩, ?_, rfl, ?_, ?_⟩
  · unfold ConnectionPostgreSQL.next
    simp [hmode, hsingle, hconn, hpos, hg, hr]
  · show (PQclear s c.res).live + 1 = 1
    rw [PQclear_live s c.res hlive]
  · show max (PQclear s c.res).peak ((PQclear s c.res).live + 1) ≤ 1
    rw [PQclear_live s c.res hlive, PQclear_peak]
    exact max_le hpeak (le_refl _)

/-- In single-row mode, `next()` on the pending terminal tuples-ok result releases the
result in hand, fetches and drains the rest, leaves no current result and no live result,
sets no error and returns false. -/
theorem next_pull_last (c : ConnectionPostgreSQL) (s : PGconn) (last : PGresult)
    (rest : List PGresult) (hmode : c.singleRow = true) (hsingle : c.isSingleRow ≠ 0)
    (hconn : c.conn = true) (hpos : c.next_pos ≠ 0) (hpending : s.pending = last :: rest)
    (hlast : last.status = ExecStatusType.PGRES_TUPLES_OK)
    (hlive : s.live = c.res.toList.length) (hpeak : s.peak ≤ 1) :
    ∃ s2 : PGconn, c.next s = (false, { c with res := none }, s2)
      ∧ s2.pending = [] ∧ s2.live = 0 ∧ s2.peak ≤ 1 := by
  have hg := PQgetResult_cons (PQclear s c.res) last rest
    (by rw [PQclear_pending]; exact hpending)
  obtain ⟨h1, _, h3, h4⟩ := drainResults_spec
    ⟨rest, (PQclear s c.res).errorMessage, (PQclear s c.res).live + 1,
      max (PQclear s c.res).peak ((PQclear s c.res).live + 1)⟩ last
  refine ⟨drainResults ⟨rest, (PQclear s c.res).errorMessage, (PQclear s c.res).live + 1,
    max (PQclear s c.res).peak ((PQclear s c.res).live + 1)⟩ last, ?_, h1, ?_, ?_⟩
  · unfold ConnectionPostgreSQL.next
    simp [hmode, hsingle, hconn, hpos, hg, hlast]
  · rw [h3]
    show (PQclear s c.res).live + 1 - 1 = 0
    rw [PQclear_live s c.res hlive]
  · refine le_trans h4 ?_
    show max (max (PQclear s c.res).peak ((PQclear s c.res).live + 1))
      ((PQclear s c.res).live + 1 - 1 + 1) ≤ 1
    rw [PQclear_live s c.res hlive, PQclear_peak]
    exact max_le (max_le hpeak (le_refl _)) (le_refl _)

/-- Once the first row has been delivered, the calls of `next()` walk through the pending
single-tuple results one at a time, with one live result after each call, and stop,
without an error and without a live result, at the terminal result. -/
theorem nextTimes_stream (rows : List PGresult) (last : PGresult)
    (hlast : last.status = ExecStatusType.PGRES_TUPLES_OK) :
    ∀ (c : ConnectionPostgreSQL) (s : PGconn),
      c.singleRow = true → c.isSingleRow ≠ 0 → c.conn = true → c.next_pos ≠ 0 →
      s.pending = rows ++ [last] →
      (∀ r ∈ rows, r.status = ExecStatusType.PGRES_SINGLE_TUPLE) →
      s.live = c.res.toList.length → s.peak ≤ 1 →
      (∀ i, i < rows.length →
        (ConnectionPostgreSQL.next (ConnectionPostgreSQL.nextTimes i (c, s)).1
            (ConnectionPostgreSQL.nextTimes i (c, s)).2).1 = true
        ∧ (ConnectionPostgreSQL.next (ConnectionPostgreSQL.nextTimes i (c, s)).1
            (ConnectionPostgreSQL.nextTimes i (c, s)).2).2.1.res = rows[i]?
        ∧ (ConnectionPostgreSQL.next (ConnectionPostgreSQL.nextTimes i (c, s)).1
            (ConnectionPostgreSQL.nextTimes i (c, s)).2).2.1.err = c.err
        ∧ (ConnectionPostgreSQL.next (ConnectionPostgreSQL.nextTimes i (c, s)).1
            (ConnectionPostgreSQL.nextTimes i (c, s)).2).2.2.live = 1
        ∧ (ConnectionPostgreSQL.next (ConnectionPostgreSQL.nextTimes i (c, s)).1
            (ConnectionPostgreSQL.nextTimes i (c, s)).2).2.2.peak ≤ 1)
      ∧ (ConnectionPostgreSQL.next (ConnectionPostgreSQL.nextTimes rows.length (c, s)).1
            (ConnectionPostgreSQL.nextTimes rows.length (c, s)).2).1 = false
      ∧ (ConnectionPostgreSQL.next (ConnectionPostgreSQL.nextTimes rows.length (c, s)).1
            (ConnectionPostgreSQL.nextTimes rows.length (c, s)).2).2.1.res = none
      ∧ (ConnectionPostgreSQL.next (ConnectionPostgreSQL.nextTimes rows.length (c, s)).1
            (ConnectionPostgreSQL.nextTimes rows.length (c, s)).2).2.1.err = c.err
      ∧ (ConnectionPostgreSQL.next (ConnectionPostgreSQL.nextTimes rows.length (c, s)).1
            (ConnectionPostgreSQL.nextTimes rows.length (c, s)).2).2.2.live = 0
      ∧ (ConnectionPostgreSQL.next (ConnectionPostgreSQL.nextTimes rows.length (c, s)).1
            (ConnectionPostgreSQL.nextTimes rows.length (c, s)).2).2.2.peak ≤ 1 := by
  induction rows with
  | nil =>
    intro c s hmode hsingle hconn hpos hpending _ hlive hpeak
    obtain ⟨s2, h, _, h3, h4⟩ := next_pull_last c s last [] hmode hsingle hconn hpos
      (by simpa using hpending) hlast hlive hpeak
    refine ⟨fun i hi => absurd hi (by simp), ?_⟩
    simp only [List.length_nil, ConnectionPostgreSQL.nextTimes, h]
    exact ⟨trivial, trivial, trivial, h3, h4⟩
  | cons r rest ih =>
    intro c s hmode hsingle hconn hpos hpending hrows hlive hpeak
    have hr : r.status = ExecStatusType.PGRES_SINGLE_TUPLE := hrows r (List.mem_cons_self _ _)
    obtain ⟨s2, h, h2, h3, h4⟩ := next_pull_row c s r (rest ++ [last]) hmode hsingle hconn hpos
      (by simpa using hpending) hr hlive hpeak
    have ih2 := ih { c with res := some r } s2 hmode hsingle hconn hpos h2
      (fun x hx => hrows x (List.mem_cons_of_mem _ hx)) (by simpa using h3) h4
    refine ⟨?_, ?_⟩
    · intro i hi
      cases i with
      | zero =>
        simp only [ConnectionPostgreSQL.nextTimes, h]
        exact ⟨trivial, by simp, trivial, h3, h4⟩
      | succ j =>
        have hj : j < rest.length := by simpa using hi
        have := ih2.1 j hj
        simpa [ConnectionPostgreSQL.nextTimes, h] using this
    · have := ih2.2
      simpa [ConnectionPostgreSQL.nextTimes, h] using this

/-- The state `exec()` leaves in single-row mode when the stream of the driver starts with
the terminal tuples-ok result: no current result, nothing pending, no live result. -/
theorem exec_stream_nil (c : ConnectionPostgreSQL) (s : PGconn) (d : ExecReply)
    (last : PGresult) (hmode : c.singleRow = true) (hstmt : c.stmtName ≠ [])
    (hsend : d.sendQueryPrepared = true) (hsingle : d.setSingleRowMode ≠ 0)
    (hlast : last.status = ExecStatusType.PGRES_TUPLES_OK) (hstream : d.results = [last])
    (hlive : s.live = c.res.toList.length) (hpeak : s.peak ≤ 1) :
    (c.exec s d).ok = true
    ∧ (c.exec s d).state
        = { c with next_pos := 0, res := none, isSingleRow := d.setSingleRowMode }
    ∧ (c.exec s d).session.pending = []
    ∧ (c.exec s d).session.live = 0
    ∧ (c.exec s d).session.peak ≤ 1 := by
  have hlen : ¬ c.stmtName.length = 0 := by simpa [List.length_eq_zero] using hstmt
  have h0 := PQclear_live s c.res hlive
  have hp := PQclear_peak s c.res
  unfold ConnectionPostgreSQL.exec
  simp [hlen, hmode, hsend, hsingle, ConnectionPostgreSQL.firstSingleRow, PQgetResult,
    PGconn.handOut, hstream, hlast, drainResults, drainResults.loop, PQclear_pending, h0, hp,
    hpeak]
  simp [PQclear]

/-- The state `exec()` leaves in single-row mode when the stream of the driver starts with
a single-tuple result: that result is the current one and the one live result, the rest is
pending. -/
theorem exec_stream_cons (c : ConnectionPostgreSQL) (s : PGconn) (d : ExecReply)
    (r : PGresult) (rest : List PGresult) (hmode : c.singleRow = true)
    (hstmt : c.stmtName ≠ []) (hsend : d.sendQueryPrepared = true)
    (hsingle : d.setSingleRowMode ≠ 0)
    (hr : r.status = ExecStatusType.PGRES_SINGLE_TUPLE) (hstream : d.results = r :: rest)
    (hlive : s.live = c.res.toList.length) (hpeak : s.peak ≤ 1) :
    (c.exec s d).ok = true
    ∧ (c.exec s d).state
        = { c with next_pos := 0, res := some r, isSingleRow := d.setSingleRowMode }
    ∧ (c.exec s d).session.pending = rest
    ∧ (c.exec s d).session.live = 1
    ∧ (c.exec s d).session.peak ≤ 1 := by
  have hlen : ¬ c.stmtName.length = 0 := by simpa [List.length_eq_zero] using hstmt
  have h0 := PQclear_live s c.res hlive
  have hp := PQclear_peak s c.res
  unfold ConnectionPostgreSQL.exec
  simp [hlen, hmode, hsend, hsingle, ConnectionPostgreSQL.firstSingleRow, PQgetResult,
    PGconn.handOut, hstream, hr, h0, hp, hpeak]

/-- C11: streaming fetch. In single-row mode, accepted by the driver, on a loaded statement
of an open connection whose only live driver result is the one it holds: if the results
the driver delivers are `K` single-tuple results `rows` followed by the terminal tuples-ok
result and then the end of the results, `exec()` returns true with no error and holds the
first row, if there is one, and nothing else; call number `i + 1` of `next()`, for every
`i < K`, returns true with `rows[i]` as the current result, no error, and exactly one
result live; call number `K + 1` returns false with no result held, none live and no error
set. The number of results fetched and not yet released with `PQclear` has never been
above one: its peak is at most 1 after every call. -/
theorem streaming_fetch (c : ConnectionPostgreSQL) (s : PGconn) (d : ExecReply)
    (rows : List PGresult) (last : PGresult)
    (hmode : c.singleRow = true) (hconn : c.conn = true) (hstmt : c.stmtName ≠ [])
    (hsend : d.sendQueryPrepared = true) (hsingle : d.setSingleRowMode ≠ 0)
    (hrows : ∀ r ∈ rows, r.status = ExecStatusType.PGRES_SINGLE_TUPLE)
    (hlast : last.status = ExecStatusType.PGRES_TUPLES_OK)
    (hstream : d.results = rows ++ [last])
    (hlive : s.live = c.res.toList.length) (hpeak : s.peak ≤ 1) :
    (c.exec s d).ok = true
    ∧ (c.exec s d).state.err = c.err
    ∧ (c.exec s d).state.res = rows.head?
    ∧ (c.exec s d).session.live = rows.head?.toList.length
    ∧ (c.exec s d).session.peak ≤ 1
    ∧ (∀ i, i < rows.length →
        (c.execThenNext s d i).1 = true
        ∧ (c.execThenNext s d i).2.1.res = rows[i]?
        ∧ (c.execThenNext s d i).2.1.err = c.err
        ∧ (c.execThenNext s d i).2.2.live = 1
        ∧ (c.execThenNext s d i).2.2.peak ≤ 1)
    ∧ (c.execThenNext s d rows.length).1 = false
    ∧ (c.execThenNext s d rows.length).2.1.res = none
    ∧ (c.execThenNext s d rows.length).2.1.err = c.err
    ∧ (c.execThenNext s d rows.length).2.2.live = 0
    ∧ (c.execThenNext s d rows.length).2.2.peak ≤ 1 := by
  cases rows with
  | nil =>
    obtain ⟨h1, h2, h3, h4, h5⟩ := exec_stream_nil c s d last hmode hstmt hsend hsingle hlast
      (by simpa using hstream) hlive hpeak
    refine ⟨h1, by rw [h2], by rw [h2]; rfl, by simpa using h4, h5,
      fun i hi => absurd hi (by simp), ?_⟩
    unfold ConnectionPostgreSQL.execThenNext
    have hg := PQgetResult_nil (PQclear (c.exec s d).session none)
      (by rw [PQclear_pending]; exact h3)
    rw [h2]
    simp only [List.length_nil, ConnectionPostgreSQL.nextTimes]
    unfold ConnectionPostgreSQL.next
    simp [hmode, hsingle, hconn, hg]
    exact ⟨by simpa [PQclear] using h4, by simpa [PQclear] using h5⟩
  | cons r rest =>
    have hr : r.status = ExecStatusType.PGRES_SINGLE_TUPLE := hrows r (List.mem_cons_self _ _)
    obtain ⟨h1, h2, h3, h4, h5⟩ := exec_stream_cons c s d r (rest ++ [last]) hmode hstmt hsend
      hsingle hr (by simpa using hstream) hlive hpeak
    have hfirst : ConnectionPostgreSQL.next
        { c with next_pos := 0, res := some r, isSingleRow := d.setSingleRowMode }
        (c.exec s d).session
        = (true, { c with next_pos := 1, res := some r, isSingleRow := d.setSingleRowMode },
            (c.exec s d).session) := by
      unfold ConnectionPostgreSQL.next
      simp [hmode, hsingle, hconn]
    have hs := nextTimes_stream rest last hlast
      { c with next_pos := 1, res := some r, isSingleRow := d.setSingleRowMode }
      (c.exec s d).session hmode hsingle hconn (show (1 : Int) ≠ 0 by decide) h3
      (fun x hx => hrows x (List.mem_cons_of_mem _ hx)) (by simpa using h4) h5
    refine ⟨h1, by rw [h2], by rw [h2]; rfl, by simpa using h4, h5, ?_, ?_⟩
    · intro i hi
      unfold ConnectionPostgreSQL.execThenNext
      rw [h2]
      cases i with
      | zero =>
        simp only [ConnectionPostgreSQL.nextTimes, hfirst]
        exact ⟨trivial, by simp, trivial, h4, h5⟩
      | succ j =>
        have hj : j < rest.length := by simpa using hi
        have := hs.1 j hj
        simpa [ConnectionPostgreSQL.nextTimes, hfirst] using this
    · unfold ConnectionPostgreSQL.execThenNext
      rw [h2]
      have := hs.2
      simpa [ConnectionPostgreSQL.nextTimes, hfirst] using this

/-- C11, at a stream of two rows, on a connection that holds no result: `exec()` returns
true, the first two calls of `next()` return true with the first and then the second row
held, the third returns false, and after it no result is live and the peak is at most 1. -/
theorem streaming_fetch_witness :
    (sampleLoaded ['s', 'e', 'l', 'e', 'c', 't', ' ', '1']).singleRow = true
    ∧ (sampleLoaded ['s', 'e', 'l', 'e', 'c', 't', ' ', '1']).conn = true
    ∧ (sampleLoaded ['s', 'e', 'l', 'e', 'c', 't', ' ', '1']).stmtName ≠ []
    ∧ (sampleLoaded ['s', 'e', 'l', 'e', 'c', 't', ' ', '1']).res = none
    ∧ ((sampleLoaded ['s', 'e', 'l', 'e', 'c', 't', ' ', '1']).exec ⟨[], [], 0, 0⟩
        (sampleReply [sampleRow ['1'], sampleRow ['2'], sampleLast])).ok = true
    ∧ ((sampleLoaded ['s', 'e', 'l', 'e', 'c', 't', ' ', '1']).execThenNext ⟨[], [], 0, 0⟩
        (sampleReply [sampleRow ['1'], sampleRow ['2'], sampleLast]) 0).2.1.res
        = some (sampleRow ['1'])
    ∧ ((sampleLoaded ['s', 'e', 'l', 'e', 'c', 't', ' ', '1']).execThenNext ⟨[], [], 0, 0⟩
        (sampleReply [sampleRow ['1'], sampleRow ['2'], sampleLast]) 1).2.1.res
        = some (sampleRow ['2'])
    ∧ ((sampleLoaded ['s', 'e', 'l', 'e', 'c', 't', ' ', '1']).execThenNext ⟨[], [], 0, 0⟩
        (sampleReply [sampleRow ['1'], sampleRow ['2'], sampleLast]) 1).2.2.live = 1
    ∧ ((sampleLoaded ['s', 'e', 'l', 'e', 'c', 't', ' ', '1']).execThenNext ⟨[], [], 0, 0⟩
        (sampleReply [sampleRow ['1'], sampleRow ['2'], sampleLast]) 2).1 = false
    ∧ ((sampleLoaded ['s', 'e', 'l', 'e', 'c', 't', ' ', '1']).execThenNext ⟨[], [], 0, 0⟩
        (sampleReply [sampleRow ['1'], sampleRow ['2'], sampleLast]) 2).2.2.live = 0
    ∧ ((sampleLoaded ['s', 'e', 'l', 'e', 'c', 't', ' ', '1']).execThenNext ⟨[], [], 0, 0⟩
        (sampleReply [sampleRow ['1'], sampleRow ['2'], sampleLast]) 2).2.2.peak ≤ 1 := by
  have h := streaming_fetch (sampleLoaded ['s', 'e', 'l', 'e', 'c', 't', ' ', '1'])
    ⟨[], [], 0, 0⟩ (sampleReply [sampleRow ['1'], sampleRow ['2'], sampleLast])
    [sampleRow ['1'], sampleRow ['2']] sampleLast (by decide) (by decide) (by decide)
    (by decide) (by decide) (by decide) (by decide) (by decide) (by decide) (by decide)
  obtain ⟨h1, _, _, _, _, h6, h7, _, _, h10, h11⟩ := h
  exact ⟨by decide, by decide, by decide, by decide, h1, (h6 0 (by decide)).2.1,
    (h6 1 (by decide)).2.1, (h6 1 (by decide)).2.2.2.1, h7, h10, h11⟩

/-! ## Binding parameters -/

/-- On an open connection `prepare` stores the count of `replaceParameters` in
`boundCount`, whatever the driver answers. -/
theorem prepare_boundCount (c : ConnectionPostgreSQL) (query : List Char) (d : PrepareReply)
    (hc : c.conn = true) : (c.prepare query d).2.boundCount = (replaceParameters query).2 := by
  unfold ConnectionPostgreSQL.prepare
  simp only [hc, Bool.not_true, Bool.false_eq_true, if_false]
  split
  · split
    · simp [ConnectionPostgreSQL.setError]
    · split <;> simp [ConnectionPostgreSQL.setError]
  · split <;> simp [ConnectionPostgreSQL.setError]

theorem mapFind_mapAssign_self (pos : Int) (value : List Char) (m : List (Int × List Char)) :
    mapFind pos (mapAssign pos value m) = some value := by
  induction m with
  | nil => simp [mapAssign, mapFind]
  | cons e rest ih =>
    rw [mapAssign]
    split
    · simp [mapFind]
    · split
      · simp [mapFind]
      · rename_i h1 h2
        have : ¬ e.1 = pos := fun h => h2 h.symm
        simp [mapFind, this, ih]

theorem mapFind_mapAssign_other (pos key : Int) (hne : key ≠ pos) (value : List Char)
    (m : List (Int × List Char)) :
    mapFind key (mapAssign pos value m) = mapFind key m := by
  induction m with
  | nil => simp [mapAssign, mapFind, Ne.symm hne]
  | cons e rest ih =>
    rw [mapAssign]
    split
    · simp [mapFind, Ne.symm hne]
    · split
      · rename_i h1 h2
        have : ¬ e.1 = key := by rw [← h2]; exact Ne.symm hne
        simp [mapFind, Ne.symm hne, this]
      · by_cases hk : e.1 = key
        · simp [mapFind, hk]
        · simp [mapFind, hk, ih]

/-- A bind at a position within the declared count records the value under that position
on the client/server adapter, and under the position plus one on the embedded adapter;
the entries of the other positions stay. -/
theorem bind_in_range_records (pos : Int) (value : List Char) :
    (∀ c : ConnectionPostgreSQL, 0 ≤ pos → pos < c.boundCount →
        mapFind pos (c.bind pos value).bound = some value
        ∧ ∀ key, key ≠ pos → mapFind key (c.bind pos value).bound = mapFind key c.bound)
    ∧ (∀ (c : ConnectionSqlite) (stmt : sqlite3_stmt), c.stmt = some stmt →
        c.isPrepare = true → 0 ≤ pos → pos < stmt.bind_parameter_count →
        mapFind (pos + 1) (c.bind pos value).bound = some value
        ∧ ∀ key, key ≠ pos + 1 →
            mapFind key (c.bind pos value).bound = mapFind key c.bound) := by
  constructor
  · intro c h0 h1
    have hg : ¬ (pos < 0 ∨ pos ≥ c.boundCount) := by omega
    simp only [ConnectionPostgreSQL.bind, hg, if_false]
    exact ⟨mapFind_mapAssign_self _ _ _, fun key hk => mapFind_mapAssign_other _ _ hk _ _⟩
  · intro c stmt hs hp h0 h1
    have hg : ¬ (c.isPrepare = false ∨ pos < 0 ∨ pos ≥ stmt.bind_parameter_count) := by
      simp only [hp, Bool.true_eq_false, false_or]
      omega
    simp only [ConnectionSqlite.bind, hs, hg, if_false]
    exact ⟨mapFind_mapAssign_self _ _ _, fun key hk => mapFind_mapAssign_other _ _ hk _ _⟩

/-- C12, at the input where it fails: a statement with two parameters on the client/server
adapter, and the one call `bind(1, "x")`. `exec()` hands the driver an array of one value,
so `x` goes to the first parameter and the second gets nothing, where the claim has `x` as
the second parameter. The embedded adapter, on the same calls, binds `x` to parameter 2;
and with both positions bound, as in the example of the claim, the client/server adapter
hands over `1` and `'a'` in that order. -/
theorem exec_sparse_bind_shifts_position :
    (sampleLoaded "insert into t values(?, ?)".toList).boundCount = 2
    ∧ (((sampleLoaded "insert into t values(?, ?)".toList).bind 1 ['x']).exec ⟨[], [], 0, 0⟩
        (sampleReply [])).sent = some [['x']]
    ∧ (((sampleSqlite 2).bind 1 ['x']).exec ⟨SQLITE_DONE, [], []⟩).2.stmt.map
        (fun stmt => stmt.bindings) = some [(2, ['x'])]
    ∧ ((((sampleLoaded "insert into t values(?, ?)".toList).bind 0 ['1']).bind 1
        "'a'".toList).exec ⟨[], [], 0, 0⟩ (sampleReply [])).sent = some [['1'], "'a'".toList] := by
  decide

/-- C13: a bind at a position below 0 or not below the parameter count of the loaded
statement changes nothing on either adapter: the whole connection state, with the bound
map and the error text, is the one before the call, and so a following `exec()` does and
transmits exactly what it would have without the call. On the client/server adapter the
parameter count is the one `prepare` has stored. -/
theorem bind_out_of_range_noop (pos paramCount : Int) (value : List Char)
    (hpos : pos < 0 ∨ paramCount ≤ pos) :
    (∀ c : ConnectionPostgreSQL, c.boundCount = paramCount →
        c.bind pos value = c ∧ ∀ s d, (c.bind pos value).exec s d = c.exec s d)
    ∧ (∀ (c : ConnectionPostgreSQL) (query : List Char) (d : PrepareReply), c.conn = true →
        (placeholderCount query : Int) = paramCount →
        (c.prepare query d).2.bind pos value = (c.prepare query d).2)
    ∧ (∀ (c : ConnectionSqlite) (stmt : sqlite3_stmt), c.stmt = some stmt →
        stmt.bind_parameter_count = paramCount →
        c.bind pos value = c ∧ ∀ d, (c.bind pos value).exec d = c.exec d) := by
  have hpg : ∀ c : ConnectionPostgreSQL, c.boundCount = paramCount → c.bind pos value = c := by
    intro c hc
    have hg : pos < 0 ∨ pos ≥ c.boundCount := by omega
    simp [ConnectionPostgreSQL.bind, hg]
  refine ⟨fun c hc => ⟨hpg c hc, fun s d => by rw [hpg c hc]⟩, ?_, ?_⟩
  · intro c query d hc hq
    apply hpg
    rw [prepare_boundCount c query d hc, replaceParameters_eq]
    exact hq
  · intro c stmt hs hcount
    have hg : c.isPrepare = false ∨ pos < 0 ∨ pos ≥ stmt.bind_parameter_count := by
      right
      omega
    have hb : c.bind pos value = c := by simp [ConnectionSqlite.bind, hs, hg]
    exact ⟨hb, fun d => by rw [hb]⟩

/-- C13, at a statement with two parameters and one value bound: `bind(-1, "x")` and
`bind(2, "x")` leave both adapters as they are. -/
theorem bind_out_of_range_noop_witness :
    (((sampleLoaded "insert into t values(?, ?)".toList).bind 0 ['1']).bind (-1) ['x']
        = (sampleLoaded "insert into t values(?, ?)".toList).bind 0 ['1'])
    ∧ (((sampleLoaded "insert into t values(?, ?)".toList).bind 0 ['1']).bind 2 ['x']
        = (sampleLoaded "insert into t values(?, ?)".toList).bind 0 ['1'])
    ∧ (((sampleSqlite 2).bind 0 ['1']).bind 2 ['x'] = (sampleSqlite 2).bind 0 ['1']) := by
  refine ⟨?_, ?_, ?_⟩
  · exact ((bind_out_of_range_noop (-1) 2 ['x'] (by decide)).1
      ((sampleLoaded "insert into t values(?, ?)".toList).bind 0 ['1']) (by decide)).1
  · exact ((bind_out_of_range_noop 2 2 ['x'] (by decide)).1
      ((sampleLoaded "insert into t values(?, ?)".toList).bind 0 ['1']) (by decide)).1
  · exact ((bind_out_of_range_noop 2 2 ['x'] (by decide)).2.2
      ((sampleSqlite 2).bind 0 ['1']) ⟨2, [(['n', 'a', 'm', 'e'], some ['t', 'e', 'x', 't'])],
        [], []⟩ (by decide) (by decide)).1

/-! ## Reads outside the columns -/

/-- Outside the columns, and with no result or statement, `value` and `fieldType` of the
client/server adapter and `fieldName`, `value` and `fieldType` of the embedded adapter
return the empty text and `None`. -/
theorem reads_out_of_range (fieldIndex : Int) :
    (∀ c : ConnectionPostgreSQL, (fieldIndex < 0 ∨ c.fieldCount ≤ fieldIndex) →
        c.value fieldIndex = some [] ∧ c.fieldType fieldIndex = FieldType.None)
    ∧ (∀ c : ConnectionSqlite, (fieldIndex < 0 ∨ c.fieldCount ≤ fieldIndex) →
        c.fieldName fieldIndex = [] ∧ c.value fieldIndex = []
        ∧ c.fieldType fieldIndex = FieldType.None) := by
  constructor
  · intro c h
    cases hres : c.res with
    | none => simp [ConnectionPostgreSQL.value, ConnectionPostgreSQL.fieldType, hres]
    | some res =>
      have hg : fieldIndex < 0 ∨ PQnfields res ≤ fieldIndex := by
        simpa [ConnectionPostgreSQL.fieldCount, hres] using h
      have hg2 : fieldIndex < 0 ∨ fieldIndex ≥ PQnfields res := hg
      simp [ConnectionPostgreSQL.value, ConnectionPostgreSQL.fieldType, hres, hg, hg2]
  · intro c h
    cases hs : c.stmt with
    | none =>
      simp [ConnectionSqlite.fieldName, ConnectionSqlite.value, ConnectionSqlite.fieldType, hs]
    | some stmt =>
      have hg : fieldIndex < 0 ∨ fieldIndex ≥ sqlite3_column_count stmt := by
        simpa [ConnectionSqlite.fieldCount, hs] using h
      simp [ConnectionSqlite.fieldName, ConnectionSqlite.value, ConnectionSqlite.fieldType, hs,
        hg]

/-- Outside the columns, and with no result, `fieldName` of the client/server adapter
constructs its `std::string` from a null pointer. -/
theorem fieldName_out_of_range (c : ConnectionPostgreSQL) (fieldIndex : Int)
    (h : fieldIndex < 0 ∨ c.fieldCount ≤ fieldIndex) : c.fieldName fieldIndex = none := by
  cases hres : c.res with
  | none => simp [ConnectionPostgreSQL.fieldName, hres]
  | some res =>
    have hg : fieldIndex < 0 ∨ PQnfields res ≤ fieldIndex := by
      simpa [ConnectionPostgreSQL.fieldCount, hres] using h
    simp [ConnectionPostgreSQL.fieldName, hres, hg]

/-- C14, at the inputs where it fails: `fieldName` of the client/server adapter with no
result active (index 0), and on a result of one column at the indexes 1 and -1. The guard
of the source yields the null pointer `0` and the returned `std::string` is constructed
from it, which has no defined result (libstdc++ throws), where the claim has the empty
text returned; inside the columns the name is returned, and `value` and `fieldType` do
return the empty text and `None` at the same inputs. -/
theorem fieldName_null_pointer :
    (sampleLoaded ['s', 'e', 'l', 'e', 'c', 't', ' ', '1']).res = none
    ∧ (sampleLoaded ['s', 'e', 'l', 'e', 'c', 't', ' ', '1']).fieldName 0 = none
    ∧ (ConnectionPostgreSQL.fieldName
        { sampleLoaded ['s', 'e', 'l', 'e', 'c', 't', ' ', '1'] with
          res := some (sampleRow ['7']) } 1) = none
    ∧ (ConnectionPostgreSQL.fieldName
        { sampleLoaded ['s', 'e', 'l', 'e', 'c', 't', ' ', '1'] with
          res := some (sampleRow ['7']) } (-1)) = none
    ∧ (ConnectionPostgreSQL.fieldName
        { sampleLoaded ['s', 'e', 'l', 'e', 'c', 't', ' ', '1'] with
          res := some (sampleRow ['7']) } 0) = some ['i', 'd']
    ∧ (sampleLoaded ['s', 'e', 'l', 'e', 'c', 't', ' ', '1']).value 0 = some []
    ∧ (sampleLoaded ['s', 'e', 'l', 'e', 'c', 't', ' ', '1']).fieldType 0 = FieldType.None := by
  decide
